import Mathlib

/-!
The commands of `go-pkg` (`commands/httpd.go`, `commands/fetchers.go`,
`commands/esbuild.go`)

A shallow embedding of the hot-reload development server (request router,
response interceptor, reload gateway, subscriber registry, watch loop and
watcher setup), of the package fetching and type extraction commands, and of
the settings of the build command.  The definitions come first, namespace by
namespace; the properties proved about them follow.

Go strings and byte slices are sequences of bytes.  The HTTP response writer
of `net/http` is modelled by its documented contract: the header map is live
until the first `WriteHeader` (or `Write`), which commits the status line
together with a snapshot of the header map; later `WriteHeader` calls are
ignored and later edits of the header map do not reach the client; a `Write`
that would exceed the content length committed with the status line is
refused as a whole (`http.ErrContentLength`), and so is a `Write` under a
status that allows no body.  Networks, registries and disks are parameters of
the functions that use them.
-/

namespace Httpd

/-! ## Strings -/

/-- A Go `string` (or `[]byte`): a sequence of bytes. -/
abbrev GoString := List UInt8

/-- The bytes of a string literal of the source (UTF-8). -/
def lit (s : String) : GoString := s.data.flatMap String.utf8EncodeChar

/-- Go `strings.HasSuffix(s, suffix)`. -/
def HasSuffix (s suffix : GoString) : Bool := suffix.isSuffixOf s

/-- Go `strings.Index(s, substr)`: the byte offset of the first occurrence of
`substr` in `s`, `none` standing for Go's `-1`. -/
def Index : GoString → GoString → Option Nat
  | [], substr => if substr.isPrefixOf [] then some 0 else none
  | c :: t, substr =>
    if substr.isPrefixOf (c :: t) then some 0
    else (Index t substr).map (· + 1)

/-- Go `strings.Contains(s, substr)`, that is `Index(s, substr) >= 0`. -/
def Contains (s substr : GoString) : Bool := (Index s substr).isSome

/-- Go `strings.Replace(s, old, new, 1)` for a non-empty `old`: the first
occurrence of `old` is replaced by `new`; `s` is returned when there is none. -/
def Replace1 (s old new : GoString) : GoString :=
  match Index s old with
  | none => s
  | some j => s.take j ++ new ++ s.drop (j + old.length)

/-- Go `fmt.Sprint(n)` for a non-negative `int`: its decimal digits. -/
def Sprint (n : Nat) : GoString := lit (Nat.repr n)

/-! ## The response writer of `net/http` -/

/-- The header map `http.Header` as seen through `Get`: the value stored under
each key, the empty string when the key is missing. -/
abbrev Header := GoString → GoString

/-- Go `Header.Get(key)`. -/
def Header.Get (h : Header) (key : GoString) : GoString := h key

/-- Go `Header.Set(key, value)`. -/
def Header.Set (h : Header) (key value : GoString) : Header :=
  fun k => if k = key then value else h k

/-- Go `Header.Del(key)`. -/
def Header.Del (h : Header) (key : GoString) : Header :=
  fun k => if k = key then [] else h k

/-- The value of a non-empty run of decimal digits, `none` when the run is
empty or holds another byte. -/
def parseDigits (s : GoString) : Option Nat :=
  if s = [] then none
  else s.foldl
    (fun acc b => acc.bind fun n =>
      if 48 ≤ b ∧ b ≤ 57 then some (n * 10 + (b.toNat - 48)) else none)
    (some 0)

/-- The content length that the writer of `net/http` reads from the
`Content-Length` header when the status line is sent: the value `v` of
`strconv.ParseInt(cl, 10, 64)` (an optional sign, then decimal digits, within
64 bits) when it parses and `v >= 0`; `none`, Go's `-1`, for an empty header
and for every other string. -/
def parseContentLength (cl : GoString) : Option Nat :=
  match cl with
  | [] => none
  | 43 :: digits => (parseDigits digits).bind fun n => if n < 2 ^ 63 then some n else none
  | 45 :: digits => (parseDigits digits).bind fun n => if n = 0 then some 0 else none
  | _ => (parseDigits cl).bind fun n => if n < 2 ^ 63 then some n else none

/-- Go `bodyAllowedForStatus(status)` of `net/http`: the statuses 1xx, 204 and
304 carry no body. -/
def bodyAllowedForStatus (status : Nat) : Bool :=
  !(decide (100 ≤ status ∧ status ≤ 199) || decide (status = 204) || decide (status = 304))

/-- The `http.ResponseWriter` handed to `ServeHTTP` by the server: the live
header map, whether the status line has been sent, the status and the header
snapshot that were sent with it, the content length declared by that snapshot
(`none` for Go's `-1`), the number of bytes passed to `Write` so far, and the
body bytes that the connection carries. -/
structure ResponseWriter where
  header : Header
  wroteHeader : Bool
  status : Nat
  sent : Header
  contentLength : Option Nat
  written : Nat
  body : GoString

/-- The writer of a new request: nothing set, nothing sent. -/
def ResponseWriter.fresh : ResponseWriter :=
  { header := fun _ => [], wroteHeader := false, status := 0, sent := fun _ => [],
    contentLength := none, written := 0, body := [] }

/-- Go `w.WriteHeader(code)` on the server's writer: the first call sends the
status line with the header map as it is at that moment and keeps the content
length that the map declares; later calls are ignored. -/
def ResponseWriter.WriteHeader (w : ResponseWriter) (code : Nat) : ResponseWriter :=
  if w.wroteHeader then w
  else
    { w with wroteHeader := true, status := code, sent := w.header,
             contentLength := parseContentLength (w.header.Get (lit "Content-Length")) }

/-- Go `w.Write(b)` on the server's writer: an implicit `WriteHeader(200)` when
the status line has not been sent yet; no byte is taken when the status allows
no body (`ErrBodyNotAllowed`); the bytes are counted, and they are written to
the connection unless the count then exceeds the declared content length
(`ErrContentLength`, nothing is written). -/
def ResponseWriter.Write (w : ResponseWriter) (b : GoString) : ResponseWriter :=
  let w1 := if w.wroteHeader then w else w.WriteHeader 200
  if b.length = 0 then w1
  else if bodyAllowedForStatus w1.status = false then w1
  else
    let w2 := { w1 with written := w1.written + b.length }
    match w2.contentLength with
    | some n => if w2.written > n then w2 else { w2 with body := w2.body ++ b }
    | none => { w2 with body := w2.body ++ b }

/-- Whether the writer takes every byte passed to `Write`: the status line
sent allows a body and declares no content length, or it is not sent yet and
the header map declares no content length. -/
def ResponseWriter.unlimited (w : ResponseWriter) : Bool :=
  if w.wroteHeader then bodyAllowedForStatus w.status && w.contentLength.isNone
  else (parseContentLength (w.header.Get (lit "Content-Length"))).isNone

/-! ## `responseRecorder` -/

/-- The recorder of `httpd.go`: it embeds the real writer (so `Header()` is the
real header map), buffers the body and remembers the status. -/
structure responseRecorder where
  ResponseWriter : ResponseWriter
  buf : GoString
  status : Nat

/-- Go `responseRecorder.WriteHeader`: stores the status and forwards the call
to the embedded writer. -/
def responseRecorder.WriteHeader (r : responseRecorder) (status : Nat) : responseRecorder :=
  { r with status := status, ResponseWriter := r.ResponseWriter.WriteHeader status }

/-- Go `responseRecorder.Write`: a zero status becomes 200, the bytes go to the
buffer only. -/
def responseRecorder.Write (r : responseRecorder) (b : GoString) : responseRecorder :=
  { r with status := if r.status = 0 then 200 else r.status, buf := r.buf ++ b }

/-! ## The static file handler `h.fs` -/

/-- One edit of the header map. -/
inductive HeaderEdit where
  | set (key value : GoString)
  | del (key : GoString)

/-- Go `w.Header().Set/Del` for one edit. -/
def HeaderEdit.apply (h : Header) : HeaderEdit → Header
  | .set key value => h.Set key value
  | .del key => h.Del key

/-- The calls the static file handler (`http.FileServer`) makes on its writer
for one request: header edits, then an explicit `WriteHeader(code)` if any
(file contents, errors and redirects have one; directory listings have none),
then the body chunks in order. -/
structure StaticResponse where
  edits : List HeaderEdit
  code : Option Nat
  chunks : List GoString

/-- Go `h.fs.ServeHTTP(w, r)` called with the server's writer. -/
def StaticResponse.serve (resp : StaticResponse) (w : ResponseWriter) : ResponseWriter :=
  let w1 := { w with header := resp.edits.foldl HeaderEdit.apply w.header }
  let w2 := match resp.code with
    | some c => w1.WriteHeader c
    | none => w1
  resp.chunks.foldl ResponseWriter.Write w2

/-- Go `h.fs.ServeHTTP(rec, r)` called with a recorder: header edits reach the
embedded writer's map, the other calls are the recorder's methods. -/
def StaticResponse.serveRec (resp : StaticResponse) (r : responseRecorder) : responseRecorder :=
  let r1 := { r with ResponseWriter :=
    { r.ResponseWriter with header := resp.edits.foldl HeaderEdit.apply r.ResponseWriter.header } }
  let r2 := match resp.code with
    | some c => r1.WriteHeader c
    | none => r1
  resp.chunks.foldl responseRecorder.Write r2

/-! ## The subscriber registry `h.clients` -/

/-- A channel `chan []byte`, known by its identity. -/
abbrev Chan := Nat

/-- The map `map[chan []byte]bool` of the handler.  Every stored value is
`true`, so the map is its keys: pairwise distinct channels, listed in the
(unspecified) order in which `range` visits them. -/
structure ClientMap where
  keys : List Chan
  nodup : keys.Nodup

/-- Go `make(map[chan []byte]bool)`. -/
def ClientMap.empty : ClientMap := ⟨[], List.nodup_nil⟩

/-- Go `h.clients[c] = true`. -/
def ClientMap.set (m : ClientMap) (c : Chan) : ClientMap :=
  if hc : c ∈ m.keys then m else ⟨c :: m.keys, List.nodup_cons.mpr ⟨hc, m.nodup⟩⟩

/-- Go `delete(h.clients, c)`. -/
def ClientMap.delete (m : ClientMap) (c : Chan) : ClientMap :=
  ⟨m.keys.filter (fun k => k ≠ c), m.nodup.filter _⟩

/-- The handler `hotReloadHandler`: the static file handler as a function of
the request path, the registry, and the two extension lists. -/
structure hotReloadHandler where
  fs : GoString → StaticResponse
  clients : ClientMap
  watchExts : List GoString
  injectExts : List GoString

/-- The loop of `notifyClients` over the keys of the map: a non-blocking send
`select { case client <- msg: default: }` on each, which succeeds exactly when
a receiver is waiting on that channel.  The result lists the sends that
succeeded, in order. -/
def notifyLoop (msg : GoString) (ready : Chan → Bool) : List Chan → List (Chan × GoString)
  | [] => []
  | client :: rest =>
    if ready client then (client, msg) :: notifyLoop msg ready rest
    else notifyLoop msg ready rest

/-- Go `h.notifyClients(msg)`. -/
def hotReloadHandler.notifyClients (h : hotReloadHandler) (msg : GoString)
    (ready : Chan → Bool) : List (Chan × GoString) :=
  notifyLoop msg ready h.clients.keys

/-! ## The reload gateway `handleHotReload` -/

/-- What the `select` of the gateway loop sees next: a message received on the
connection's channel (with whether the write of its frame succeeds), the
cancellation of the request, or the shutdown signal. -/
inductive StreamEvent where
  | message (msg : GoString) (writeOk : Bool)
  | done
  | shutdown

/-- Whether the event makes `handleHotReload` return: the cancellation, the
shutdown, or a message whose frame cannot be written. -/
def StreamEvent.ends : StreamEvent → Bool
  | .message _ writeOk => !writeOk
  | .done => true
  | .shutdown => true

/-- The state of one call of `handleHotReload`: the registry, the writer, and
whether the call has returned (it is blocked in `select` otherwise). -/
structure Stream where
  clients : ClientMap
  w : ResponseWriter
  returned : Bool

/-- Go `fmt.Sprintf("data: %s\n\n", msg)`. -/
def frame (msg : GoString) : GoString := lit "data: " ++ msg ++ lit "\n\n"

/-- The deferred function of `handleHotReload`, run at every return. -/
def Stream.close (s : Stream) (messageChan : Chan) : Stream :=
  { s with clients := s.clients.delete messageChan, returned := true }

/-- The `for { select { ... } }` loop of `handleHotReload`; `writeOk` tells
whether `fmt.Fprintf` returns no error. A failed write sends no byte. -/
def streamLoop (messageChan : Chan) : List StreamEvent → Stream → Stream
  | [], s => s
  | .message msg writeOk :: rest, s =>
    if writeOk then streamLoop messageChan rest { s with w := s.w.Write (frame msg) }
    else s.close messageChan
  | .done :: _, s => s.close messageChan
  | .shutdown :: _, s => s.close messageChan

/-- Go `h.handleHotReload(w, r)`, where `messageChan` is the channel made by the
call and `evs` what its `select` sees. -/
def hotReloadHandler.handleHotReload (h : hotReloadHandler) (w : ResponseWriter)
    (messageChan : Chan) (evs : List StreamEvent) : Stream :=
  let w1 := { w with header := w.header.Set (lit "Content-Type") (lit "text/event-stream") }
  let w2 := { w1 with header := w1.header.Set (lit "Cache-Control") (lit "no-cache") }
  let w3 := { w2 with header := w2.header.Set (lit "Connection") (lit "keep-alive") }
  streamLoop messageChan evs { clients := h.clients.set messageChan, w := w3, returned := false }

/-! ## The request router `ServeHTTP` -/

/-- The script of `ServeHTTP`. -/
def reloadScript : GoString := lit "\n\t\t\t\t\t\t<script>\n\t\t\t\t\t\t\t(function() \x7b\n\t\t\t\t\t\t\t\tconst evtSource = new EventSource(\"/_hotreload\");\n\t\t\t\t\t\t\t\tevtSource.onmessage = function(e) \x7b\n\t\t\t\t\t\t\t\t\tif (e.data === \"reload\") \x7b\n\t\t\t\t\t\t\t\t\t\tconsole.log(\"Reloading page...\");\n\t\t\t\t\t\t\t\t\t\tlocation.reload();\n\t\t\t\t\t\t\t\t\t\x7d\n\t\t\t\t\t\t\t\t\x7d;\n\t\t\t\t\t\t\t\tevtSource.onerror = function() \x7b\n\t\t\t\t\t\t\t\t\tconsole.log(\"EventSource error. Closing connection.\");\n\t\t\t\t\t\t\t\t\tevtSource.close();\n\t\t\t\t\t\t\t\t\x7d;\n\t\t\t\t\t\t\t\x7d)();\n\t\t\t\t\t\t</script>\n\t\t\t\t\t"

/-- The rewriting of the buffered body (lines 169 to 173). -/
def injectScript (body : GoString) : GoString :=
  if Contains body (lit "</body>") then
    Replace1 body (lit "</body>") (reloadScript ++ lit "</body>")
  else body ++ reloadScript

/-- The test on the content type (lines 147 and 148). -/
def isHTML (contentType : GoString) : Bool :=
  Contains contentType (lit "text/html") || Contains contentType (lit "application/xhtml+xml")

/-- The statement by which a call of `ServeHTTP` ends: the `return` after the
injection, the `return` after the gateway, or the final static serving. -/
inductive Route where
  | injected
  | gateway
  | static
  deriving DecidableEq, Repr

/-- The outcome of a call of `ServeHTTP`. -/
structure Served where
  route : Route
  w : ResponseWriter
  clients : ClientMap
  returned : Bool

/-- The recorder after `h.fs.ServeHTTP(rec, r)` for a new recorder `rec` around
the writer `w` (lines 140 and 141). -/
def StaticResponse.recorded (resp : StaticResponse) (w : ResponseWriter) : responseRecorder :=
  resp.serveRec { ResponseWriter := w, buf := [], status := 0 }

/-- The test that lets an iteration inject (lines 144 to 148): the recorder
holds status 200 and the header map holds an HTML or XHTML content type. -/
def injectable (resp : StaticResponse) (w : ResponseWriter) : Bool :=
  decide ((resp.recorded w).status = 200) &&
    isHTML ((resp.recorded w).ResponseWriter.header.Get (lit "Content-Type"))

/-- The injection proper (lines 150 to 176): the body is rewritten, the
content length is set in the header map of the writer, then `WriteHeader` and
`Write` are called on the writer. -/
def writeInjected (rec1 : responseRecorder) : ResponseWriter :=
  let body := injectScript rec1.buf
  let w := rec1.ResponseWriter
  let w1 := { w with header := w.header.Set (lit "Content-Length") (Sprint body.length) }
  let w2 := w1.WriteHeader rec1.status
  w2.Write body

/-- How the loop over `h.injectExts` ends: by the `return` of an iteration
that injected, or by running out of extensions; in both cases with the writer
as it is then. -/
inductive LoopExit where
  | returned (w : ResponseWriter)
  | fellThrough (w : ResponseWriter)

/-- The loop over `h.injectExts` of `ServeHTTP` (lines 137 to 181).  The
recorder wraps the writer `w` itself, so what the recorder forwards is done
to `w`. -/
def injectLoop (h : hotReloadHandler) (path : GoString) :
    List GoString → ResponseWriter → LoopExit
  | [], w => .fellThrough w
  | ext :: rest, w =>
    if HasSuffix path ext then
      let rec1 := (h.fs path).recorded w
      if rec1.status = 200 then
        let contentType := rec1.ResponseWriter.header.Get (lit "Content-Type")
        if isHTML contentType then .returned (writeInjected rec1)
        else injectLoop h path rest rec1.ResponseWriter
      else injectLoop h path rest rec1.ResponseWriter
    else injectLoop h path rest w

/-- Go `h.ServeHTTP(w, r)` for a request of path `path`; `messageChan` and `evs`
are the channel and the schedule of the gateway, should it be called. -/
def hotReloadHandler.ServeHTTP (h : hotReloadHandler) (w : ResponseWriter) (path : GoString)
    (messageChan : Chan) (evs : List StreamEvent) : Served :=
  match injectLoop h path h.injectExts w with
  | .returned w1 => { route := .injected, w := w1, clients := h.clients, returned := true }
  | .fellThrough w1 =>
    if path = lit "/_hotreload" then
      let s := h.handleHotReload w1 messageChan evs
      { route := .gateway, w := s.w, clients := s.clients, returned := s.returned }
    else
      { route := .static, w := (h.fs path).serve w1, clients := h.clients, returned := true }

/-! ## The watch loop `watchFiles` -/

/-- An `fsnotify.Event`: the path and the operation bits. -/
structure Event where
  Name : GoString
  Op : Nat

/-- The bit `fsnotify.Write`. -/
def fsnotify.Write : Nat := 2

/-- Go `event.Has(op)`: the bits of `op` are set in the event. -/
def Event.Has (e : Event) (op : Nat) : Bool := e.Op &&& op != 0

/-- The loop over `h.watchExts` run for one event: the messages passed to
`notifyClients`, in order.  The `break` ends the loop at the first match. -/
def watchExtLoop (event : Event) : List GoString → List GoString
  | [] => []
  | ext :: rest =>
    if event.Has fsnotify.Write && HasSuffix event.Name ext then [lit "reload"]
    else watchExtLoop event rest

/-- The handling of one event received from `h.watcher.Events` (lines 242 to
249): the calls of `notifyClients` it makes. -/
def hotReloadHandler.onEvent (h : hotReloadHandler) (event : Event) : List GoString :=
  watchExtLoop event h.watchExts

/-- What the `select` of `watchFiles` sees next: an event, the closing of the
event channel, an error, the closing of the error channel, or the shutdown
signal. -/
inductive WatchInput where
  | event (e : Event)
  | eventsClosed
  | error (err : GoString)
  | errorsClosed
  | shutdown

/-- The state of `watchFiles`: the messages passed to `notifyClients` so far,
in order, and whether the loop has returned. -/
structure Watch where
  notified : List GoString
  returned : Bool

/-- The `for { select { ... } }` loop of `watchFiles`. -/
def watchLoop (h : hotReloadHandler) : List WatchInput → Watch → Watch
  | [], s => s
  | .event e :: rest, s => watchLoop h rest { s with notified := s.notified ++ h.onEvent e }
  | .eventsClosed :: _, s => { s with returned := true }
  | .error _ :: rest, s => watchLoop h rest s
  | .errorsClosed :: _, s => { s with returned := true }
  | .shutdown :: _, s => { s with returned := true }

/-- Go `h.watchFiles()`, where `inputs` is what its `select` sees. -/
def hotReloadHandler.watchFiles (h : hotReloadHandler) (inputs : List WatchInput) : Watch :=
  watchLoop h inputs { notified := [], returned := false }

/-- Whether the input makes `watchFiles` return: a closed channel or the
shutdown signal. -/
def WatchInput.stops : WatchInput → Bool
  | .eventsClosed => true
  | .errorsClosed => true
  | .shutdown => true
  | _ => false

/-- Whether the input is an error value received from `h.watcher.Errors`. -/
def WatchInput.isError : WatchInput → Bool
  | .error _ => true
  | _ => false

/-! ## `filepath.Walk` and `setupWatcher` -/

/-- A cleaned absolute path, by its elements; the empty list is the root `/`. -/
abbrev Path := List GoString

mutual
/-- What `os.Lstat` and the reading of a directory show of a file tree: a file
(anything that is not a directory) with its content, a name whose `Lstat`
fails, or a directory with whether reading its names fails and its entries. -/
inductive Node where
  | file (data : GoString)
  | broken
  | dir (readErr : Bool) (entries : Entries)
/-- The entries of a directory, by name. -/
inductive Entries where
  | nil
  | cons (name : GoString) (node : Node) (rest : Entries)
end

/-- Go `info.IsDir()`. -/
def Node.IsDir : Node → Bool
  | .dir _ _ => true
  | _ => false

/-- Whether `Lstat` succeeds on the node and it is not a directory. -/
def Node.isFile : Node → Bool
  | .file _ => true
  | _ => false

/-- The error values a walk function returns: `filepath.SkipDir` or any other
error. -/
inductive WalkErr where
  | SkipDir
  | other
  deriving DecidableEq, Repr

/-- A `filepath.WalkFunc` acting on a state: it gets the path, what is there,
and whether the walk hands it an error. -/
abbrev WalkFunc (σ : Type) := Path → Node → Bool → σ → σ × Option WalkErr

mutual
/-- The function `walk` of `path/filepath`: a file is handed to the function;
the names of a directory are read first, the function is called with the
outcome, and the entries are walked when neither failed. -/
def walk {σ : Type} (fn : WalkFunc σ) (path : Path) : Node → σ → σ × Option WalkErr
  | .file data, s => fn path (.file data) false s
  | .broken, s => fn path .broken true s
  | .dir readErr entries, s =>
    match fn path (.dir readErr entries) readErr s with
    | (s1, some e) => (s1, some e)
    | (s1, none) => if readErr then (s1, none) else walkEntries fn path entries s1
/-- The loop of `walk` over the names of a directory: `SkipDir` coming from an
entry that is not a file only skips that entry; every other error ends the
walk of the directory. -/
def walkEntries {σ : Type} (fn : WalkFunc σ) (path : Path) :
    Entries → σ → σ × Option WalkErr
  | .nil, s => (s, none)
  | .cons name node rest, s =>
    match walk fn (path ++ [name]) node s with
    | (s1, none) => walkEntries fn path rest s1
    | (s1, some e) =>
      if e = .SkipDir ∧ node.isFile = false then walkEntries fn path rest s1
      else (s1, some e)
end

/-- Go `filepath.Walk(root, fn)`: `SkipDir` at the root is no error. -/
def filepath.Walk {σ : Type} (fn : WalkFunc σ) (root : Path) (tree : Node) (s : σ) :
    σ × Option WalkErr :=
  match walk fn root tree s with
  | (s1, some .SkipDir) => (s1, none)
  | r => r

/-- Go `filepath.Base(path)`: the last element, `/` for the root. -/
def filepath.Base (path : Path) : GoString := path.getLast?.getD (lit "/")

/-- The walk function of `setupWatcher` (lines 289 to 301); the state is the
list of paths added to the watcher, and `addFails` tells for which paths
`watcher.Add` returns an error. -/
def watchFn (addFails : Path → Bool) : WalkFunc (List Path) := fun path info err ws =>
  if err then (ws, some .other)
  else if info.IsDir then
    if (filepath.Base path).head? = some 46 then (ws, some .SkipDir)
    else if addFails path then (ws, some .other)
    else (ws ++ [path], none)
  else (ws, none)

/-- Go `setupWatcher(dir, watchExts)` on the file tree found at `dir`: the
paths registered with the watcher, or `none` when `log.Fatalf` ends the
process. -/
def setupWatcher (newWatcherFails : Bool) (addFails : Path → Bool) (dir : Path)
    (tree : Node) : Option (List Path) :=
  if newWatcherFails then none
  else match filepath.Walk (watchFn addFails) dir tree [] with
    | (ws, none) => some ws
    | (_, some _) => none

/-- Whether a name begins with a dot. -/
def hiddenName (name : GoString) : Bool := name.head? == some 46

mutual
/-- The directories of a tree, each by the names that lead to it from the
root of the tree (the root itself by the empty list). -/
def Node.dirs : Node → List Path
  | .dir _ entries => [] :: Entries.dirs entries
  | _ => []
/-- The directories below the entries of a directory. -/
def Entries.dirs : Entries → List Path
  | .nil => []
  | .cons name node rest => (Node.dirs node).map (fun q => name :: q) ++ Entries.dirs rest
end

mutual
/-- Whether every name of the tree can be read: no failing `Lstat`, no
directory whose names cannot be read. -/
def Node.healthy : Node → Bool
  | .file _ => true
  | .broken => false
  | .dir readErr entries => !readErr && Entries.healthy entries
/-- Whether every entry is healthy. -/
def Entries.healthy : Entries → Bool
  | .nil => true
  | .cons _ node rest => Node.healthy node && Entries.healthy rest
end

/-! ## Sample inputs -/

/-- A small page with a closing body tag. -/
def samplePage : GoString := lit "<html><body>Hi</body></html>"

/-- How `http.FileServer` serves a file: content type and length are set, the
status line is sent with `WriteHeader(200)`, then the content is written. -/
def fileResponse (contentType content : GoString) : StaticResponse :=
  { edits := [.set (lit "Content-Type") contentType,
              .set (lit "Content-Length") (Sprint content.length)],
    code := some 200,
    chunks := [content] }

/-- How `http.FileServer` answers a missing file. -/
def notFound : StaticResponse :=
  { edits := [.del (lit "Content-Length"),
              .set (lit "Content-Type") (lit "text/plain; charset=utf-8")],
    code := some 404,
    chunks := [lit "404 page not found\n"] }

/-- A served directory that holds `page.html`, `plain.html` (no closing body
tag) and `app.js`. -/
def sampleFS (path : GoString) : StaticResponse :=
  if path = lit "/page.html" then fileResponse (lit "text/html; charset=utf-8") samplePage
  else if path = lit "/plain.html" then fileResponse (lit "text/html; charset=utf-8") (lit "Hi")
  else if path = lit "/app.js" then fileResponse (lit "text/javascript; charset=utf-8") (lit "x=1")
  else notFound

/-- The handler with the default extension lists and no subscriber. -/
def sampleHandler : hotReloadHandler :=
  { fs := sampleFS, clients := ClientMap.empty,
    watchExts := [lit ".html"], injectExts := [lit ".html"] }

/-- A handler whose inject list also holds the extension `reload`, which the
path of the gateway ends with. -/
def clashHandler : hotReloadHandler :=
  { fs := sampleFS, clients := ClientMap.empty,
    watchExts := [lit ".html"], injectExts := [lit ".html", lit "reload"] }

/-- A registry with three subscribers. -/
def sampleClients : ClientMap := ((ClientMap.empty.set 1).set 2).set 3

/-- A served directory with a page, a sub-directory and a hidden directory
that has a sub-directory. -/
def sampleTree : Node :=
  .dir false
    (.cons (lit "a") (.dir false (.cons (lit "x.html") (.file (lit "x")) .nil))
    (.cons (lit ".git") (.dir false (.cons (lit "objects") (.dir false .nil) .nil))
    (.cons (lit "page.html") (.file samplePage)
    (.cons (lit "b") (.dir false .nil) .nil))))

end Httpd

/-! # Package fetching and type extraction (`commands/fetchers.go`) -/

namespace Fetchers

open Httpd

deriving instance DecidableEq for Except

/-! ## Strings and paths -/

/-- Go `strings.LastIndexByte(s, c)`: the offset of the last `c` in `s`, or
`-1`. -/
def LastIndexByte : GoString → UInt8 → Int
  | [], _ => -1
  | b :: t, c =>
    if LastIndexByte t c ≥ 0 then LastIndexByte t c + 1
    else if b = c then 0
    else -1

/-- Go `strings.LastIndex(s, substr)`: the offset of the last occurrence of
`substr` in `s`, or `-1`. -/
def LastIndex : GoString → GoString → Int
  | [], substr => if substr = [] then 0 else -1
  | b :: t, substr =>
    if LastIndex t substr ≥ 0 then LastIndex t substr + 1
    else if substr.isPrefixOf (b :: t) then 0
    else -1

/-- Go `strings.Split(s, sep)` for a separator of one byte. -/
def Split : GoString → UInt8 → List GoString
  | [], _ => [[]]
  | b :: t, sep =>
    if b = sep then [] :: Split t sep
    else match Split t sep with
      | [] => [[b]]
      | seg :: rest => (b :: seg) :: rest

/-- The scan of `strings.ReplaceAll`: `skip` bytes of a replaced occurrence
are still to be passed over. -/
def replaceScan (old new : GoString) : GoString → Nat → GoString
  | [], _ => []
  | _ :: t, skip + 1 => replaceScan old new t skip
  | c :: t, 0 =>
    if old.isPrefixOf (c :: t) then new ++ replaceScan old new t (old.length - 1)
    else c :: replaceScan old new t 0

/-- Go `strings.ReplaceAll(s, old, new)` for a non-empty `old`: every
occurrence found from the left, without overlap, is replaced. -/
def ReplaceAll (s old new : GoString) : GoString := replaceScan old new s 0

/-- Go `strings.TrimSuffix(s, suffix)`. -/
def TrimSuffix (s suffix : GoString) : GoString :=
  if HasSuffix s suffix then s.take (s.length - suffix.length) else s

/-- Go `strings.TrimPrefix(s, prefix)`: what removing a leading `prefix`
means.  `typingFromFile` does not call it; it serves to state what removing
the leading `package/` of a name would give. -/
def TrimPrefix (s pre : GoString) : GoString :=
  if pre.isPrefixOf s then s.drop pre.length else s

/-- Go `path.Base(p)`: trailing slashes are dropped, then what follows the
last slash is kept; `.` for the empty path and `/` for slashes only. -/
def path.Base (p : GoString) : GoString :=
  if p = [] then lit "."
  else
    let stripped := (p.reverse.dropWhile (fun b => b = 47)).reverse
    let last := (stripped.reverse.takeWhile (fun b => b ≠ 47)).reverse
    if last = [] then lit "/" else last

/-- Go `filepath.Ext(name)` on a name without separator: the suffix that
begins at the last dot, empty when there is no dot. -/
def filepath.Ext : GoString → GoString
  | [] => []
  | c :: t =>
    if filepath.Ext t ≠ [] then filepath.Ext t
    else if c = 46 then c :: t
    else []

/-! ## The `npm` command -/

/-- The arguments `pkg` and `version` of the call of `fetchNPM` made for one
package argument (lines 65 to 76). -/
def npmArgument (pkg : GoString) : GoString × GoString :=
  let i := LastIndexByte pkg 64
  if i ≤ 0 then (pkg, [])
  else (pkg.take i.toNat, pkg.drop (i + 1).toNat)

/-- The registry and the disk as `fetchNPM` meets them: for a URL, the
`dist-tags.latest` of an answer with status 200 that decodes (`none` for
every failure) and the body of an answer with status 200; for a file name,
whether `os.Create` fails. -/
structure NpmEnv where
  latest : GoString → Option GoString
  tarball : GoString → Option GoString
  createFails : GoString → Bool

/-- A file stored by a fetch: its name, the version fetched and the content. -/
structure Stored where
  filename : GoString
  version : GoString
  content : GoString
  deriving DecidableEq

/-- The download of `fetchNPM` once the version is known (lines 240 to 266);
`none` stands for the error returned. -/
def fetchNPMVersion (env : NpmEnv) (out mirror pkg version : GoString) : Option Stored :=
  if version = [] then none
  else
    let baseName := path.Base pkg
    let url := mirror ++ lit "/" ++ pkg ++ lit "/-/" ++ baseName ++ lit "-" ++ version
      ++ lit ".tgz"
    match env.tarball url with
    | none => none
    | some body =>
      let safePkgName := ReplaceAll pkg (lit "/") (lit "_")
      let filename := out ++ lit "/" ++ safePkgName ++ lit "-" ++ version ++ lit ".tgz"
      if env.createFails filename then none
      else some { filename := filename, version := version, content := body }

/-- Go `fetchNPM(out, mirror, pkg, version)`: an empty version is replaced by
the latest one of the registry. -/
def fetchNPM (env : NpmEnv) (out mirror pkg version : GoString) : Option Stored :=
  if version = [] then
    match env.latest (mirror ++ lit "/" ++ pkg) with
    | none => none
    | some latest => fetchNPMVersion env out mirror pkg latest
  else fetchNPMVersion env out mirror pkg version

/-- The loop of the `npm` command over its package arguments (lines 64 to
78): the files stored, `none` at the first error. -/
def npmPackages (env : NpmEnv) (o m : GoString) : List GoString → Option (List Stored)
  | [] => some []
  | pkg :: rest =>
    match fetchNPM env o m (npmArgument pkg).1 (npmArgument pkg).2 with
    | none => none
    | some f => (npmPackages env o m rest).map (fun fs => f :: fs)

/-! ## The `mvn` command -/

/-- Go `parseDependency(dependency)`. -/
def parseDependency (dependency : GoString) : Except GoString (List GoString × GoString) :=
  let atIndex := LastIndex dependency (lit "@")
  let packaging := if atIndex ≠ -1 then dependency.drop (atIndex + 1).toNat else lit "jar"
  let dependency := if atIndex ≠ -1 then dependency.take atIndex.toNat else dependency
  let parts := Split dependency 58
  if parts.length < 3 then .error (lit "invalid segment: " ++ dependency)
  else if parts.getD 0 [] = [] ∨ parts.getD 1 [] = [] then
    .error (lit "invalid segment: " ++ dependency)
  else .ok (parts, packaging)

/-- The segments written one after the other with a colon between them. -/
def joinSegments : List GoString → GoString
  | [] => []
  | [s] => s
  | s :: rest => s ++ 58 :: joinSegments rest

/-- The fields `latest` and `release` of `maven-metadata.xml`. -/
structure Metadata where
  Latest : GoString
  Release : GoString

/-- The repository and the disk as `fetchMaven` meets them: for a URL, the
metadata of an answer with status 200 that parses and the body of an answer
with status 200, or the error; for a file name, the error of `os.Create` when
it fails. -/
structure MavenEnv where
  metadata : GoString → Except GoString Metadata
  get : GoString → Except GoString GoString
  createError : GoString → Option GoString

/-- Go `getLatestVersion(mirror, group, artifact)`. -/
def getLatestVersion (env : MavenEnv) (mirror group artifact : GoString) :
    Except GoString GoString :=
  let groupPath := ReplaceAll group (lit ".") (lit "/")
  let metadataURL := TrimSuffix mirror (lit "/") ++ lit "/" ++ groupPath ++ lit "/" ++ artifact
    ++ lit "/maven-metadata.xml"
  match env.metadata metadataURL with
  | .error e => .error e
  | .ok metadata =>
    if metadata.Latest ≠ [] then .ok metadata.Latest
    else if metadata.Release ≠ [] then .ok metadata.Release
    else .error (lit "no latest version found in metadata")

/-- The file fetched by `fetchMaven`: the directory and the name joined into
the output path, the coordinates used and the content. -/
structure MavenStored where
  out : GoString
  filename : GoString
  version : GoString
  classifier : GoString
  packaging : GoString
  downloadURL : GoString
  content : GoString
  deriving DecidableEq

/-- The download of `fetchMaven` once the version is known (lines 335 to
375). -/
def fetchMavenVersion (env : MavenEnv) (out mirror : GoString) (parts : List GoString)
    (packaging version : GoString) : Except GoString MavenStored :=
  let group := parts.getD 0 []
  let artifact := parts.getD 1 []
  let classifier := if parts.length ≥ 4 then parts.getD 3 [] else []
  let filename := artifact ++ lit "-" ++ version
  let filename := if classifier ≠ [] then filename ++ lit "-" ++ classifier else filename
  let filename := filename ++ lit "." ++ packaging
  let groupPath := ReplaceAll group (lit ".") (lit "/")
  let jarPath := groupPath ++ lit "/" ++ artifact ++ lit "/" ++ version ++ lit "/" ++ filename
  let downloadURL := TrimSuffix mirror (lit "/") ++ lit "/" ++ jarPath
  match env.get downloadURL with
  | .error e => .error (lit "fetch error: " ++ e)
  | .ok body =>
    match env.createError filename with
    | some e => .error (lit "create file error: " ++ e)
    | none => .ok { out := out, filename := filename, version := version,
                    classifier := classifier, packaging := packaging,
                    downloadURL := downloadURL, content := body }

/-- Go `fetchMaven(out, mirror, pkg)`. -/
def fetchMaven (env : MavenEnv) (out mirror pkg : GoString) : Except GoString MavenStored :=
  match parseDependency pkg with
  | .error e => .error e
  | .ok (parts, packaging) =>
    let version := parts.getD 2 []
    if version = [] then
      match getLatestVersion env mirror (parts.getD 0 []) (parts.getD 1 []) with
      | .error e => .error e
      | .ok latest => fetchMavenVersion env out mirror parts packaging latest
    else fetchMavenVersion env out mirror parts packaging version

/-! ## The `types` command -/

/-- An entry of a tar archive: the name of its header and its bytes. -/
structure TarEntry where
  Name : GoString
  data : GoString

/-- What `tar.Reader.Next` yields for an archive: the entries in order, then
`io.EOF`, or a read error when the archive is corrupt. -/
structure Archive where
  entries : List TarEntry
  corrupt : Bool

/-- A file written: the directory and the name given to `filepath.Join`, and
the bytes. -/
structure Written where
  dir : GoString
  name : GoString
  data : GoString
  deriving DecidableEq

/-- The loop of `typingFromFile` over the entries (lines 143 to 170): the
files written, and whether it ends on an error; `writeFails` tells for which
names the directory or the file cannot be made. -/
def extractLoop (writeFails : GoString → Bool) (o : GoString) (corrupt : Bool) :
    List TarEntry → List Written × Bool
  | [] => ([], corrupt)
  | header :: rest =>
    if HasSuffix header.Name (lit ".d.ts") then
      let name := ReplaceAll header.Name (lit "package/") (lit "")
      if writeFails name then ([], true)
      else
        let r := extractLoop writeFails o corrupt rest
        ({ dir := o, name := name, data := header.data } :: r.1, r.2)
    else extractLoop writeFails o corrupt rest

/-- Go `typingFromFile(pkg, o)`, where `archive` is what opening `pkg` as a
gzip stream gives, `none` when that fails. -/
def typingFromFile (writeFails : GoString → Bool) (archive : Option Archive) (o : GoString) :
    List Written × Bool :=
  match archive with
  | none => ([], true)
  | some a => extractLoop writeFails o a.corrupt a.entries

/-- The walk function of `typingFromFolder` (lines 174 to 196); the state is
the list of files copied, each by its destination path and its bytes. -/
def typingFn (writeFails : Path → Bool) (pkg o : Path) : WalkFunc (List (Path × GoString)) :=
  fun path info err copied =>
    if err then (copied, some .other)
    else if info.IsDir || filepath.Ext (filepath.Base path) ≠ lit ".d" then (copied, none)
    else
      let base := filepath.Base path
      if base.length > 3 ∧ base.drop (base.length - 4) = lit ".ts.d" then
        let relPath := path.drop pkg.length
        let destPath := o ++ relPath
        if writeFails destPath then (copied, some .other)
        else match info with
          | .file data => (copied ++ [(destPath, data)], none)
          | _ => (copied, some .other)
      else (copied, none)

/-- Go `typingFromFolder(pkg, o)` on the file tree found at `pkg`. -/
def typingFromFolder (writeFails : Path → Bool) (pkg o : Path) (tree : Node) :
    List (Path × GoString) × Option WalkErr :=
  filepath.Walk (typingFn writeFails pkg o) pkg tree []

/-! ## Sample inputs -/

/-- A registry that knows the latest version of `@babylonjs/core`. -/
def sampleNpm : NpmEnv :=
  { latest := fun url =>
      if url = lit "https://registry.npmjs.org/@babylonjs/core" then some (lit "8.27.0")
      else none,
    tarball := fun _ => some (lit "tgz"),
    createFails := fun _ => false }

/-- A repository whose metadata name `4.5.0` as the latest version. -/
def sampleMaven : MavenEnv :=
  { metadata := fun _ => .ok { Latest := lit "4.5.0", Release := lit "4.4.9" },
    get := fun _ => .ok (lit "jar bytes"),
    createError := fun _ => none }

/-- An archive with a declaration file whose directory name ends in
`package`, a declaration file right under `package/`, and a script. -/
def sampleArchive : Archive :=
  { entries := [{ Name := lit "package/my-package/index.d.ts", data := lit "A" },
                { Name := lit "package/index.d.ts", data := lit "B" },
                { Name := lit "package/index.js", data := lit "C" }],
    corrupt := false }

/-- An extracted package folder with two declaration files and a script. -/
def sampleFolder : Node :=
  .dir false
    (.cons (lit "index.d.ts") (.file (lit "A"))
    (.cons (lit "index.js") (.file (lit "C"))
    (.cons (lit "lib") (.dir false (.cons (lit "util.d.ts") (.file (lit "B")) .nil))
    (.cons (lit "odd.ts.d") (.file (lit "D")) .nil))))

end Fetchers

/-! # The `build` command (`commands/esbuild.go`) -/

namespace Esbuild

open Httpd

/-- The fields of `EsbuildConfig` that lines 240 to 284 of the action can
overwrite. -/
structure EsbuildConfig where
  EntryPoints : List GoString
  Outfile : GoString
  Outdir : GoString
  Bundle : Bool
  MinifyWhitespace : Bool
  MinifyIdentifiers : Bool
  MinifySyntax : Bool
  Sourcemap : GoString
  Watch : Bool
  Platform : GoString
  Format : GoString
  Target : GoString
  Tsconfig : GoString
  deriving DecidableEq

/-- The zero value of `EsbuildConfig`, which `var config EsbuildConfig`
declares. -/
def EsbuildConfig.zero : EsbuildConfig :=
  { EntryPoints := [], Outfile := [], Outdir := [], Bundle := false,
    MinifyWhitespace := false, MinifyIdentifiers := false, MinifySyntax := false,
    Sourcemap := [], Watch := false, Platform := [], Format := [], Target := [],
    Tsconfig := [] }

/-- The command line: for each flag, the value passed, `none` when the flag
is not passed (`entry` is a slice flag: the values passed, in order). -/
structure Command where
  entry : List GoString
  outfile : Option GoString
  outdir : Option GoString
  bundle : Option Bool
  minify : Option Bool
  minifyWhitespace : Option Bool
  minifyIdentifiers : Option Bool
  minifySyntax : Option Bool
  sourcemap : Option GoString
  watch : Option Bool
  platform : Option GoString
  format : Option GoString
  target : Option GoString
  tsconfig : Option GoString

/-- Go `cmd.String(name)` for a flag declared with the default `Value`: the
value passed, the default when the flag is not passed. -/
def cmdString (flag : Option GoString) (Value : GoString) : GoString := flag.getD Value

/-- Go `cmd.Bool(name)` for a flag declared with the default `false`. -/
def cmdBool (flag : Option Bool) : Bool := flag.getD false

/-- Go `cmd.IsSet(name)`. -/
def cmdIsSet {α : Type} (flag : Option α) : Bool := flag.isSome

/-- Lines 240 to 248 of the action: entry points, output file and output
directory taken from the command line. -/
def overrideOutputs (cmd : Command) (config : EsbuildConfig) : EsbuildConfig :=
  let config := if cmd.entry.length > 0 then { config with EntryPoints := cmd.entry } else config
  let config := if cmdString cmd.outfile [] ≠ [] then
    { config with Outfile := cmdString cmd.outfile [] } else config
  let config := if cmdString cmd.outdir [] ≠ [] then
    { config with Outdir := cmdString cmd.outdir [] } else config
  config

/-- Lines 249 to 272 of the action: the settings guarded by `cmd.IsSet`. -/
def overrideSwitches (cmd : Command) (config : EsbuildConfig) : EsbuildConfig :=
  let config := if cmdIsSet cmd.bundle then { config with Bundle := cmdBool cmd.bundle } else config
  let config := if cmdIsSet cmd.minify then
    { config with MinifyWhitespace := cmdBool cmd.minify, MinifyIdentifiers := cmdBool cmd.minify,
                  MinifySyntax := cmdBool cmd.minify } else config
  let config := if cmdIsSet cmd.minifyWhitespace then
    { config with MinifyWhitespace := cmdBool cmd.minifyWhitespace } else config
  let config := if cmdIsSet cmd.minifyIdentifiers then
    { config with MinifyIdentifiers := cmdBool cmd.minifyIdentifiers } else config
  let config := if cmdIsSet cmd.minifySyntax then
    { config with MinifySyntax := cmdBool cmd.minifySyntax } else config
  let config := if cmdIsSet cmd.sourcemap then
    { config with Sourcemap := cmdString cmd.sourcemap (lit "false") } else config
  let config := if cmdIsSet cmd.watch then { config with Watch := cmdBool cmd.watch } else config
  config

/-- Lines 273 to 284 of the action: platform, format, target and tsconfig,
each guarded by the test that `cmd.String` is not empty. -/
def overrideTargets (cmd : Command) (config : EsbuildConfig) : EsbuildConfig :=
  let config := if cmdString cmd.platform (lit "browser") ≠ [] then
    { config with Platform := cmdString cmd.platform (lit "browser") } else config
  let config := if cmdString cmd.format (lit "iife") ≠ [] then
    { config with Format := cmdString cmd.format (lit "iife") } else config
  let config := if cmdString cmd.target (lit "es2015") ≠ [] then
    { config with Target := cmdString cmd.target (lit "es2015") } else config
  let config := if cmdString cmd.tsconfig [] ≠ [] then
    { config with Tsconfig := cmdString cmd.tsconfig [] } else config
  config

/-- Lines 240 to 284 of the action: the settings of the config file
overwritten from the command line, statement by statement. -/
def override (cmd : Command) (config : EsbuildConfig) : EsbuildConfig :=
  overrideTargets cmd (overrideSwitches cmd (overrideOutputs cmd config))

/-- The values of `api.Platform` that `parsePlatform` returns. -/
inductive Platform where
  | PlatformBrowser
  | PlatformNode
  | PlatformNeutral
  deriving DecidableEq, Repr

/-- The values of `api.Format` that `parseFormat` returns. -/
inductive Format where
  | FormatIIFE
  | FormatCommonJS
  | FormatESModule
  deriving DecidableEq, Repr

/-- The values of `api.Target` that `parseTarget` returns. -/
inductive Target where
  | ES2015 | ES2016 | ES2017 | ES2018 | ES2019 | ES2020 | ES2021 | ES2022 | ES2023 | ES2024
  deriving DecidableEq, Repr

/-- The values of `api.SourceMap` that `parseSourceMap` returns. -/
inductive SourceMap where
  | SourceMapNone
  | SourceMapInline
  | SourceMapExternal
  | SourceMapInlineAndExternal
  deriving DecidableEq, Repr

/-- Go `parsePlatform(platform)`. -/
def parsePlatform (platform : GoString) : Platform :=
  if platform = lit "node" then .PlatformNode
  else if platform = lit "neutral" then .PlatformNeutral
  else .PlatformBrowser

/-- Go `parseFormat(format)`. -/
def parseFormat (format : GoString) : Format :=
  if format = lit "cjs" then .FormatCommonJS
  else if format = lit "esm" then .FormatESModule
  else .FormatIIFE

/-- Go `parseTarget(target)`. -/
def parseTarget (target : GoString) : Target :=
  if target = lit "es2024" then .ES2024
  else if target = lit "es2023" then .ES2023
  else if target = lit "es2022" then .ES2022
  else if target = lit "es2021" then .ES2021
  else if target = lit "es2020" then .ES2020
  else if target = lit "es2019" then .ES2019
  else if target = lit "es2018" then .ES2018
  else if target = lit "es2017" then .ES2017
  else if target = lit "es2016" then .ES2016
  else .ES2015

/-- Go `parseSourceMap(sourcemap)`. -/
def parseSourceMap (sourcemap : GoString) : SourceMap :=
  if sourcemap = lit "inline" then .SourceMapInline
  else if sourcemap = lit "external" then .SourceMapExternal
  else if sourcemap = lit "both" then .SourceMapInlineAndExternal
  else if sourcemap = lit "true" then .SourceMapInline
  else .SourceMapNone

/-- The fields of `api.BuildOptions` built from the modelled settings (lines
342 to 378). -/
structure BuildOptions where
  EntryPoints : List GoString
  Bundle : Bool
  MinifyWhitespace : Bool
  MinifyIdentifiers : Bool
  MinifySyntax : Bool
  Platform : Platform
  Format : Format
  Target : Target
  Tsconfig : GoString
  Write : Bool
  Sourcemap : SourceMap
  Outfile : GoString
  Outdir : GoString
  deriving DecidableEq

/-- The action of the `build` command up to the build options: `loaded` is
the config read from the file named by `--config` (the zero config without
that flag); the result is the error of the validation or the options handed
to esbuild. -/
def buildOptions (cmd : Command) (loaded : EsbuildConfig) : Except GoString BuildOptions :=
  let config := override cmd loaded
  if config.EntryPoints.length = 0 then
    .error (lit "at least one entry point must be specified")
  else if config.Outfile = [] ∧ config.Outdir = [] then
    .error (lit "either outfile or outdir must be specified")
  else
    .ok { EntryPoints := config.EntryPoints,
          Bundle := config.Bundle,
          MinifyWhitespace := config.MinifyWhitespace,
          MinifyIdentifiers := config.MinifyIdentifiers,
          MinifySyntax := config.MinifySyntax,
          Platform := parsePlatform config.Platform,
          Format := parseFormat config.Format,
          Target := parseTarget config.Target,
          Tsconfig := config.Tsconfig,
          Write := true,
          Sourcemap := parseSourceMap config.Sourcemap,
          Outfile := if config.Outfile ≠ [] then config.Outfile else [],
          Outdir := if config.Outfile ≠ [] then [] else config.Outdir }

/-! ## Sample inputs -/

/-- A command line with no flag but `--config`. -/
def noFlags : Command :=
  { entry := [], outfile := none, outdir := none, bundle := none, minify := none,
    minifyWhitespace := none, minifyIdentifiers := none, minifySyntax := none,
    sourcemap := none, watch := none, platform := none, format := none, target := none,
    tsconfig := none }

/-- A config file for node, ES modules and ES2020, with an external source
map. -/
def nodeConfig : EsbuildConfig :=
  { EsbuildConfig.zero with
    EntryPoints := [lit "src/main.ts"], Outfile := lit "dist/main.js",
    Sourcemap := lit "external",
    Platform := lit "node", Format := lit "esm", Target := lit "es2020" }

end Esbuild

namespace Httpd

/-! ## Lemmas on strings -/

theorem Index_cons (c : UInt8) (t substr : GoString) :
    Index (c :: t) substr =
      if substr.isPrefixOf (c :: t) then some 0 else (Index t substr).map (· + 1) := by
  rw [Index]

theorem Contains_cons_false {c : UInt8} {t substr : GoString}
    (hc : Contains (c :: t) substr = false) :
    substr.isPrefixOf (c :: t) = false ∧ Contains t substr = false := by
  unfold Contains at hc ⊢
  rw [Index_cons] at hc
  by_cases hp : substr.isPrefixOf (c :: t) = true
  · simp [hp] at hc
  · simp only [hp] at hc
    refine ⟨Bool.eq_false_iff.mpr hp, ?_⟩
    cases hi : Index t substr <;> simp_all

/-- A pattern whose first byte does not occur again in it is found, in
`pre ++ pattern ++ post`, right after `pre` when `pre` does not contain it. -/
theorem Index_append_of_not_Contains (a : UInt8) (tl pre post : GoString) (ha : a ∉ tl)
    (hpre : Contains pre (a :: tl) = false) :
    Index (pre ++ (a :: tl) ++ post) (a :: tl) = some pre.length := by
  induction pre with
  | nil =>
    simp only [List.nil_append, List.cons_append, Index_cons, List.length_nil]
    have : (a :: tl).isPrefixOf (a :: (tl ++ post)) = true := by
      simp [List.isPrefixOf]
    simp [this]
  | cons c t ih =>
    obtain ⟨hp, ht⟩ := Contains_cons_false hpre
    have hnot : (a :: tl).isPrefixOf (c :: t ++ (a :: tl) ++ post) = false := by
      by_contra hcon
      have h1 : (a :: tl) <+: (c :: t) ++ ((a :: tl) ++ post) := by
        simpa using hcon
      have h2 : (c :: t) <+: (c :: t) ++ ((a :: tl) ++ post) := List.prefix_append _ _
      rcases Nat.le_total (a :: tl).length (c :: t).length with hl | hl
      · have h3 := List.prefix_of_prefix_length_le h1 h2 hl
        have : (a :: tl).isPrefixOf (c :: t) = true := by simpa using h3
        rw [this] at hp
        exact Bool.noConfusion hp
      · have h3 := List.prefix_of_prefix_length_le h2 h1 hl
        obtain ⟨u, hu⟩ := h3
        obtain ⟨v, hv⟩ := h1
        have hv1 : (c :: t) ++ (u ++ v) = (c :: t) ++ ((a :: tl) ++ post) := by
          rw [← List.append_assoc, hu]; exact hv
        have hv2 := List.append_cancel_left hv1
        cases u with
        | nil =>
          have : (a :: tl).isPrefixOf (c :: t) = true := by
            rw [← hu]; simp
          rw [this] at hp
          exact Bool.noConfusion hp
        | cons b u2 =>
          simp only [List.cons_append, List.cons.injEq] at hv2 hu
          apply ha
          rw [← hu.2, hv2.1]
          simp
    rw [List.cons_append, List.cons_append, Index_cons]
    rw [List.cons_append, List.cons_append] at hnot
    rw [hnot]
    simp only [Bool.false_eq_true, if_false]
    rw [ih ht]
    simp

theorem Replace1_append_of_not_Contains (a : UInt8) (tl pre post new : GoString)
    (ha : a ∉ tl) (hpre : Contains pre (a :: tl) = false) :
    Replace1 (pre ++ (a :: tl) ++ post) (a :: tl) new = pre ++ new ++ post := by
  unfold Replace1
  rw [Index_append_of_not_Contains a tl pre post ha hpre]
  have h1 : (pre ++ (a :: tl) ++ post).take pre.length = pre := by
    rw [List.append_assoc, List.take_left]
  have h2 : (pre ++ (a :: tl) ++ post).drop (pre.length + (a :: tl).length) = post := by
    rw [← List.length_append, List.drop_left]
  simp only [h1, h2]

theorem Contains_append_self (a : UInt8) (tl pre post : GoString) (ha : a ∉ tl)
    (hpre : Contains pre (a :: tl) = false) :
    Contains (pre ++ (a :: tl) ++ post) (a :: tl) = true := by
  unfold Contains
  rw [Index_append_of_not_Contains a tl pre post ha hpre]
  rfl

theorem closingTag_eq : lit "</body>" = 60 :: [47, 98, 111, 100, 121, 62] := by decide

theorem injectScript_closingTag (pre post : GoString)
    (hpre : Contains pre (lit "</body>") = false) :
    injectScript (pre ++ lit "</body>" ++ post) =
      pre ++ (reloadScript ++ lit "</body>") ++ post := by
  have ha : (60 : UInt8) ∉ [47, 98, 111, 100, 121, 62] := by decide
  unfold injectScript
  rw [closingTag_eq] at hpre ⊢
  rw [Contains_append_self _ _ _ _ ha hpre, Replace1_append_of_not_Contains _ _ _ _ _ ha hpre]
  rfl

/-! ## Lemmas on the writers -/

theorem WriteHeader_body (w : ResponseWriter) (code : Nat) :
    (w.WriteHeader code).body = w.body := by
  unfold ResponseWriter.WriteHeader
  split <;> rfl

/-- A writer that declares no content length and allows a body takes the
bytes of a `Write` and stays so. -/
theorem Write_of_unlimited (w : ResponseWriter) (b : GoString) (hw : w.unlimited = true) :
    (w.Write b).body = w.body ++ b ∧ (w.Write b).unlimited = true := by
  have h200 : bodyAllowedForStatus 200 = true := by decide
  unfold ResponseWriter.unlimited at hw
  by_cases hh : w.wroteHeader = true
  · simp only [hh, if_true, Bool.and_eq_true, Option.isNone_iff_eq_none] at hw
    obtain ⟨hs, hc⟩ := hw
    cases b with
    | nil => simp [ResponseWriter.Write, ResponseWriter.unlimited, hh, hs, hc]
    | cons x t =>
      simp [ResponseWriter.Write, ResponseWriter.unlimited, hh, hs, hc]
  · simp only [hh, Bool.false_eq_true, if_false, Option.isNone_iff_eq_none] at hw
    cases b with
    | nil =>
      simp [ResponseWriter.Write, ResponseWriter.WriteHeader, ResponseWriter.unlimited, hh, hw,
        h200]
    | cons x t =>
      simp [ResponseWriter.Write, ResponseWriter.WriteHeader, ResponseWriter.unlimited, hh, hw,
        h200]

theorem foldl_recWrite_ResponseWriter (chunks : List GoString) (r : responseRecorder) :
    (chunks.foldl responseRecorder.Write r).ResponseWriter = r.ResponseWriter := by
  induction chunks generalizing r with
  | nil => rfl
  | cons b bs ih => rw [List.foldl_cons, ih]; rfl

theorem foldl_recWrite_buf (chunks : List GoString) (r : responseRecorder) :
    (chunks.foldl responseRecorder.Write r).buf = r.buf ++ chunks.flatten := by
  induction chunks generalizing r with
  | nil => simp
  | cons b bs ih => rw [List.foldl_cons, ih]; simp [responseRecorder.Write]

/-- The writer a recorder leaves behind: the header edits, and the status line
when the static handler sends one. -/
theorem recorded_ResponseWriter (resp : StaticResponse) (w : ResponseWriter) :
    (resp.recorded w).ResponseWriter =
      match resp.code with
      | some c => ResponseWriter.WriteHeader
          { w with header := resp.edits.foldl HeaderEdit.apply w.header } c
      | none => { w with header := resp.edits.foldl HeaderEdit.apply w.header } := by
  unfold StaticResponse.recorded StaticResponse.serveRec
  rw [foldl_recWrite_ResponseWriter]
  cases resp.code <;> rfl

theorem recorded_body (resp : StaticResponse) (w : ResponseWriter) :
    (resp.recorded w).ResponseWriter.body = w.body := by
  rw [recorded_ResponseWriter]
  cases resp.code with
  | none => rfl
  | some c => simp only [WriteHeader_body]

theorem injectLoop_of_injectable (h : hotReloadHandler) (path : GoString) (w : ResponseWriter)
    (hinj : injectable (h.fs path) w = true) (exts : List GoString)
    (hext : ∃ ext ∈ exts, HasSuffix path ext = true) :
    injectLoop h path exts w = .returned (writeInjected ((h.fs path).recorded w)) := by
  unfold injectable at hinj
  simp only [Bool.and_eq_true, decide_eq_true_eq] at hinj
  induction exts with
  | nil => simp at hext
  | cons ext rest ih =>
    unfold injectLoop
    by_cases hs : HasSuffix path ext = true
    · simp [hs, hinj.1, hinj.2]
    · simp only [hs, Bool.false_eq_true, if_false]
      apply ih
      obtain ⟨e, he, hes⟩ := hext
      rcases List.mem_cons.mp he with rfl | hr
      · exact absurd hes hs
      · exact ⟨e, hr, hes⟩

/-! ## The response interceptor -/

set_option maxRecDepth 100000 in
/-- C1, at the sample page `<html><body>Hi</body></html>` served under the
default inject list: the request matches, the static response is recorded
with status 200 and an HTML content type, and the rewriting of the buffered
body gives `pre ++ reloadScript ++ "</body>" ++ post`; but the static handler
has sent the status line through the recorder with the content length 28, so
the writer refuses the 476 bytes passed to `Write` and the connection carries
no body byte. -/
theorem ServeHTTP_injected_body_refused :
    (∃ ext ∈ sampleHandler.injectExts, HasSuffix (lit "/page.html") ext = true) ∧
    injectable (sampleHandler.fs (lit "/page.html")) ResponseWriter.fresh = true ∧
    ((sampleHandler.fs (lit "/page.html")).recorded ResponseWriter.fresh).buf =
      lit "<html><body>Hi" ++ lit "</body>" ++ lit "</html>" ∧
    Contains (lit "<html><body>Hi") (lit "</body>") = false ∧
    injectScript ((sampleHandler.fs (lit "/page.html")).recorded ResponseWriter.fresh).buf =
      lit "<html><body>Hi" ++ reloadScript ++ lit "</body>" ++ lit "</html>" ∧
    (sampleHandler.ServeHTTP ResponseWriter.fresh (lit "/page.html") 0 []).route
      = Route.injected ∧
    (sampleHandler.ServeHTTP ResponseWriter.fresh (lit "/page.html") 0 []).w.contentLength
      = some 28 ∧
    (sampleHandler.ServeHTTP ResponseWriter.fresh (lit "/page.html") 0 []).w.written = 476 ∧
    (sampleHandler.ServeHTTP ResponseWriter.fresh (lit "/page.html") 0 []).w.body = [] ∧
    (sampleHandler.ServeHTTP ResponseWriter.fresh (lit "/page.html") 0 []).w.body ≠
      lit "<html><body>Hi" ++ reloadScript ++ lit "</body>" ++ lit "</html>" := by
  decide

set_option maxRecDepth 100000 in
/-- C2, at the sample page `Hi` (no closing body tag) served under the default
inject list: the request matches, the static response is recorded with status
200 and an HTML content type, and the rewriting of the buffered body gives
`body ++ reloadScript`; but the static handler has sent the status line
through the recorder with the content length 2, so the writer refuses the 450
bytes passed to `Write` and the connection carries no body byte. -/
theorem ServeHTTP_appended_body_refused :
    (∃ ext ∈ sampleHandler.injectExts, HasSuffix (lit "/plain.html") ext = true) ∧
    injectable (sampleHandler.fs (lit "/plain.html")) ResponseWriter.fresh = true ∧
    ((sampleHandler.fs (lit "/plain.html")).recorded ResponseWriter.fresh).buf = lit "Hi" ∧
    Contains (lit "Hi") (lit "</body>") = false ∧
    injectScript ((sampleHandler.fs (lit "/plain.html")).recorded ResponseWriter.fresh).buf =
      lit "Hi" ++ reloadScript ∧
    (sampleHandler.ServeHTTP ResponseWriter.fresh (lit "/plain.html") 0 []).route
      = Route.injected ∧
    (sampleHandler.ServeHTTP ResponseWriter.fresh (lit "/plain.html") 0 []).w.contentLength
      = some 2 ∧
    (sampleHandler.ServeHTTP ResponseWriter.fresh (lit "/plain.html") 0 []).w.written = 450 ∧
    (sampleHandler.ServeHTTP ResponseWriter.fresh (lit "/plain.html") 0 []).w.body = [] ∧
    (sampleHandler.ServeHTTP ResponseWriter.fresh (lit "/plain.html") 0 []).w.body ≠
      lit "Hi" ++ reloadScript := by
  decide

set_option maxRecDepth 100000 in
/-- C3, at the sample page: the static handler sends the status line through
the recorder, which forwards it to the connection with `Content-Length: 28`;
the rewritten body has 476 bytes, which are passed to `Write` afterwards, and
the value 476 only reaches the header map, not the client, whose connection
carries none of these bytes. -/
theorem ServeHTTP_content_length_sent_before_rewrite :
    (sampleHandler.ServeHTTP ResponseWriter.fresh (lit "/page.html") 0 []).route
      = Route.injected ∧
    (sampleHandler.ServeHTTP ResponseWriter.fresh (lit "/page.html") 0 []).w.status = 200 ∧
    (sampleHandler.ServeHTTP ResponseWriter.fresh (lit "/page.html") 0 []).w.sent.Get
      (lit "Content-Length") = lit "28" ∧
    (injectScript samplePage).length = 476 ∧
    (sampleHandler.ServeHTTP ResponseWriter.fresh (lit "/page.html") 0 []).w.written = 476 ∧
    (sampleHandler.ServeHTTP ResponseWriter.fresh (lit "/page.html") 0 []).w.header.Get
      (lit "Content-Length") = lit "476" ∧
    (sampleHandler.ServeHTTP ResponseWriter.fresh (lit "/page.html") 0 []).w.sent.Get
      (lit "Content-Length") ≠ Sprint (injectScript samplePage).length ∧
    (sampleHandler.ServeHTTP ResponseWriter.fresh (lit "/page.html") 0 []).w.body = [] := by
  decide

/-! ## Passing through what is not injected -/

theorem foldl_apply_cases (es : List HeaderEdit) (k : GoString) :
    (∀ h : Header, es.foldl HeaderEdit.apply h k = h k) ∨
      (∃ v, ∀ h : Header, es.foldl HeaderEdit.apply h k = v) := by
  induction es with
  | nil => exact Or.inl (fun _ => rfl)
  | cons e es ih =>
    rcases ih with hl | ⟨v, hv⟩
    · cases e with
      | set key value =>
        by_cases hk : k = key
        · exact Or.inr ⟨value, fun h => by
            rw [List.foldl_cons, hl]; simp [HeaderEdit.apply, Header.Set, hk]⟩
        · exact Or.inl (fun h => by
            rw [List.foldl_cons, hl]; simp [HeaderEdit.apply, Header.Set, hk])
      | del key =>
        by_cases hk : k = key
        · exact Or.inr ⟨[], fun h => by
            rw [List.foldl_cons, hl]; simp [HeaderEdit.apply, Header.Del, hk]⟩
        · exact Or.inl (fun h => by
            rw [List.foldl_cons, hl]; simp [HeaderEdit.apply, Header.Del, hk])
    · exact Or.inr ⟨v, fun h => by rw [List.foldl_cons, hv]⟩

/-- Replaying the header edits of a response changes nothing. -/
theorem foldl_apply_idem (es : List HeaderEdit) (h : Header) :
    es.foldl HeaderEdit.apply (es.foldl HeaderEdit.apply h) = es.foldl HeaderEdit.apply h := by
  funext k
  rcases foldl_apply_cases es k with hl | ⟨v, hv⟩
  · rw [hl]
  · rw [hv, hv]

theorem WriteHeader_of_wroteHeader (w : ResponseWriter) (code : Nat)
    (hw : w.wroteHeader = true) : w.WriteHeader code = w := by
  unfold ResponseWriter.WriteHeader
  simp [hw]

theorem WriteHeader_wroteHeader (w : ResponseWriter) (code : Nat) :
    (w.WriteHeader code).wroteHeader = true := by
  unfold ResponseWriter.WriteHeader
  by_cases hw : w.wroteHeader = true <;> simp [hw]

theorem WriteHeader_header (w : ResponseWriter) (code : Nat) :
    (w.WriteHeader code).header = w.header := by
  unfold ResponseWriter.WriteHeader
  split <;> rfl

theorem recorded_header (resp : StaticResponse) (w : ResponseWriter) :
    (resp.recorded w).ResponseWriter.header = resp.edits.foldl HeaderEdit.apply w.header := by
  rw [recorded_ResponseWriter]
  cases resp.code with
  | none => rfl
  | some c => rw [WriteHeader_header]

theorem foldl_recWrite_status (chunks : List GoString) (r : responseRecorder) :
    (chunks.foldl responseRecorder.Write r).status =
      if chunks = [] then r.status else if r.status = 0 then 200 else r.status := by
  induction chunks generalizing r with
  | nil => rfl
  | cons b bs ih =>
    rw [List.foldl_cons, ih]
    by_cases h0 : r.status = 0 <;> by_cases hb : bs = [] <;>
      simp [responseRecorder.Write, h0, hb]

/-- The status a recorder ends with depends on the response only. -/
theorem recorded_status (resp : StaticResponse) (w w2 : ResponseWriter) :
    (resp.recorded w).status = (resp.recorded w2).status := by
  unfold StaticResponse.recorded StaticResponse.serveRec
  rw [foldl_recWrite_status, foldl_recWrite_status]
  cases resp.code <;> rfl

theorem recorded_wroteHeader_of_code (resp : StaticResponse) (w : ResponseWriter) (c : Nat)
    (hcode : resp.code = some c) : (resp.recorded w).ResponseWriter.wroteHeader = true := by
  rw [recorded_ResponseWriter, hcode]
  exact WriteHeader_wroteHeader _ c

/-- A second recorder pass leaves the writer as the first one left it. -/
theorem recorded_idem (resp : StaticResponse) (w : ResponseWriter) :
    (resp.recorded (resp.recorded w).ResponseWriter).ResponseWriter =
      (resp.recorded w).ResponseWriter := by
  have hE : resp.edits.foldl HeaderEdit.apply (resp.recorded w).ResponseWriter.header =
      (resp.recorded w).ResponseWriter.header := by
    rw [recorded_header, foldl_apply_idem]
  rw [recorded_ResponseWriter resp (resp.recorded w).ResponseWriter, hE]
  cases hcode : resp.code with
  | none => rfl
  | some c =>
    exact WriteHeader_of_wroteHeader (resp.recorded w).ResponseWriter c
      (recorded_wroteHeader_of_code resp w c hcode)

theorem injectable_recorded (resp : StaticResponse) (w : ResponseWriter) :
    injectable resp (resp.recorded w).ResponseWriter = injectable resp w := by
  unfold injectable
  rw [recorded_idem, recorded_status resp (resp.recorded w).ResponseWriter w]

/-- Serving directly after a recorder pass gives what serving directly gives. -/
theorem serve_recorded (resp : StaticResponse) (w : ResponseWriter) :
    resp.serve (resp.recorded w).ResponseWriter = resp.serve w := by
  have h := recorded_idem resp w
  rw [recorded_ResponseWriter resp (resp.recorded w).ResponseWriter] at h
  unfold StaticResponse.serve
  simp only
  rw [h, recorded_ResponseWriter resp w]

theorem injectLoop_of_not_injectable (h : hotReloadHandler) (path : GoString)
    (exts : List GoString) (w : ResponseWriter) (hinj : injectable (h.fs path) w = false) :
    injectLoop h path exts w = .fellThrough
      (if exts.any (fun ext => HasSuffix path ext) then ((h.fs path).recorded w).ResponseWriter
       else w) := by
  induction exts generalizing w with
  | nil => rfl
  | cons ext rest ih =>
    have hno : ¬ (((h.fs path).recorded w).status = 200 ∧
        isHTML (((h.fs path).recorded w).ResponseWriter.header.Get (lit "Content-Type"))
          = true) := by
      intro hc
      unfold injectable at hinj
      simp [hc.1, hc.2] at hinj
    unfold injectLoop
    by_cases hs : HasSuffix path ext = true
    · have hrest := ih ((h.fs path).recorded w).ResponseWriter
        (by rw [injectable_recorded]; exact hinj)
      rw [recorded_idem] at hrest
      simp only [ite_self] at hrest
      simp only [hs, if_true, List.any_cons, Bool.true_or]
      by_cases h200 : ((h.fs path).recorded w).status = 200
      · have hh : ¬ isHTML (((h.fs path).recorded w).ResponseWriter.header.Get
            (lit "Content-Type")) = true := fun hc => hno ⟨h200, hc⟩
        simp only [h200, if_true, hh, if_false]
        exact hrest
      · simp only [h200, if_false]
        exact hrest
    · simp only [hs, Bool.false_eq_true, if_false, List.any_cons, Bool.false_or]
      exact ih w hinj

theorem injectLoop_of_no_match (h : hotReloadHandler) (path : GoString)
    (exts : List GoString) (w : ResponseWriter)
    (hno : exts.any (fun ext => HasSuffix path ext) = false) :
    injectLoop h path exts w = .fellThrough w := by
  induction exts with
  | nil => rfl
  | cons ext rest ih =>
    simp only [List.any_cons, Bool.or_eq_false_iff] at hno
    unfold injectLoop
    simp only [hno.1, Bool.false_eq_true, if_false]
    exact ih hno.2

/-- Counterexample to C4 as stated: with the inject list `[".html", "reload"]`
the path `/_hotreload` matches an inject extension and the static response is
a 404, yet the body that reaches the client is the frame of the gateway and
not the body of the static handler. -/
theorem ServeHTTP_pass_through_fails_on_gateway_path :
    (∃ ext ∈ clashHandler.injectExts, HasSuffix (lit "/_hotreload") ext = true) ∧
    injectable (clashHandler.fs (lit "/_hotreload")) ResponseWriter.fresh = false ∧
    (clashHandler.ServeHTTP ResponseWriter.fresh (lit "/_hotreload") 0
        [.message (lit "reload") true, .done]).w.body = lit "data: reload\n\n" ∧
    ((clashHandler.fs (lit "/_hotreload")).serve ResponseWriter.fresh).body
      = lit "404 page not found\n" ∧
    (clashHandler.ServeHTTP ResponseWriter.fresh (lit "/_hotreload") 0
        [.message (lit "reload") true, .done]).w.body ≠
      ((clashHandler.fs (lit "/_hotreload")).serve ResponseWriter.fresh).body := by
  decide

/-- C4, amended: for a path other than `/_hotreload` that matches an inject
extension, when the static response is not recorded with status 200 and an
HTML content type, the call ends in the static serving and leaves the writer
exactly as the static handler alone leaves it: same status line, same headers
sent, same body bytes, nothing of the script. -/
theorem ServeHTTP_pass_through (h : hotReloadHandler) (w : ResponseWriter)
    (path : GoString) (messageChan : Chan) (evs : List StreamEvent)
    (hext : ∃ ext ∈ h.injectExts, HasSuffix path ext = true)
    (hinj : injectable (h.fs path) w = false)
    (hpath : path ≠ lit "/_hotreload") :
    (h.ServeHTTP w path messageChan evs).route = Route.static ∧
    (h.ServeHTTP w path messageChan evs).w = (h.fs path).serve w := by
  have hany : h.injectExts.any (fun ext => HasSuffix path ext) = true := by
    obtain ⟨e, he, hes⟩ := hext
    exact List.any_eq_true.mpr ⟨e, he, hes⟩
  unfold hotReloadHandler.ServeHTTP
  rw [injectLoop_of_not_injectable h path h.injectExts w hinj, hany]
  simp only [if_true, hpath, if_false]
  exact ⟨trivial, serve_recorded (h.fs path) w⟩

/-- Witness of C4: a missing page under the default inject list. -/
theorem ServeHTTP_pass_through_witness :
    (sampleHandler.ServeHTTP ResponseWriter.fresh (lit "/missing.html") 0 []).w =
      (sampleHandler.fs (lit "/missing.html")).serve ResponseWriter.fresh :=
  (ServeHTTP_pass_through sampleHandler ResponseWriter.fresh (lit "/missing.html") 0 []
    ⟨lit ".html", by decide, by decide⟩ (by decide) (by decide)).2

/-! ## The request router -/

/-- Counterexample to C5 as stated: the path `/_hotreload` matches the inject
extension `reload`, and the request is delegated to the reload gateway. -/
theorem ServeHTTP_gateway_despite_inject_match :
    (∃ ext ∈ clashHandler.injectExts, HasSuffix (lit "/_hotreload") ext = true) ∧
    (clashHandler.ServeHTTP ResponseWriter.fresh (lit "/_hotreload") 0 [.done]).route
      = Route.gateway ∧
    (clashHandler.ServeHTTP ResponseWriter.fresh (lit "/_hotreload") 0 [.done]).route
      ≠ Route.injected := by
  decide

/-- C5, amended: the call ends by the injection exactly when the path matches
an inject extension and the static response is recorded with status 200 and
an HTML content type, and then the gateway is not called and the registry is
untouched; otherwise it is the gateway for the path `/_hotreload`, and the
static file handler for every other path. -/
theorem ServeHTTP_route (h : hotReloadHandler) (w : ResponseWriter)
    (path : GoString) (messageChan : Chan) (evs : List StreamEvent) :
    (h.ServeHTTP w path messageChan evs).route =
      (if h.injectExts.any (fun ext => HasSuffix path ext) && injectable (h.fs path) w
        then Route.injected
       else if path = lit "/_hotreload" then Route.gateway
       else Route.static) ∧
    ((h.ServeHTTP w path messageChan evs).route = Route.injected →
      (h.ServeHTTP w path messageChan evs).clients = h.clients) := by
  unfold hotReloadHandler.ServeHTTP
  by_cases hany : h.injectExts.any (fun ext => HasSuffix path ext) = true
  · by_cases hinj : injectable (h.fs path) w = true
    · obtain ⟨e, he, hes⟩ := List.any_eq_true.mp hany
      rw [injectLoop_of_injectable h path w hinj h.injectExts ⟨e, he, hes⟩]
      simp [hany, hinj]
    · have hcond : (h.injectExts.any (fun ext => HasSuffix path ext) &&
          injectable (h.fs path) w) = false := by
        rw [Bool.eq_false_iff.mpr hinj, Bool.and_false]
      rw [injectLoop_of_not_injectable h path h.injectExts w (Bool.eq_false_iff.mpr hinj),
        hcond]
      by_cases hp : path = lit "/_hotreload"
      · simp only [hp, if_true]
        exact ⟨by simp, fun hc => by simp at hc⟩
      · simp only [hp, if_false]
        exact ⟨by simp, fun _ => trivial⟩
  · have hcond : (h.injectExts.any (fun ext => HasSuffix path ext) &&
        injectable (h.fs path) w) = false := by
      rw [Bool.eq_false_iff.mpr hany, Bool.false_and]
    rw [injectLoop_of_no_match h path h.injectExts w (Bool.eq_false_iff.mpr hany), hcond]
    by_cases hp : path = lit "/_hotreload"
    · simp only [hp, if_true]
      exact ⟨by simp, fun hc => by simp at hc⟩
    · simp only [hp, if_false]
      exact ⟨by simp, fun _ => trivial⟩

/-- Witness of C5: the sample page is answered by the injection and the
registry is as before. -/
theorem ServeHTTP_route_witness :
    (sampleHandler.ServeHTTP ResponseWriter.fresh (lit "/page.html") 0 []).clients =
      sampleHandler.clients :=
  (ServeHTTP_route sampleHandler ResponseWriter.fresh (lit "/page.html") 0 []).2 (by decide)

/-! ## The subscriber registry -/

theorem notifyLoop_filter (msg : GoString) (ready : Chan → Bool) (c : Chan)
    (keys : List Chan) (hnd : keys.Nodup) :
    (notifyLoop msg ready keys).filter (fun e => decide (e.1 = c)) =
      if c ∈ keys ∧ ready c = true then [(c, msg)] else [] := by
  induction keys with
  | nil => simp [notifyLoop]
  | cons k ks ih =>
    obtain ⟨hk, hks⟩ := List.nodup_cons.mp hnd
    have ih2 := ih hks
    unfold notifyLoop
    by_cases hkc : k = c
    · subst hkc
      have hnone : (notifyLoop msg ready ks).filter (fun e => decide (e.1 = k)) = [] := by
        rw [ih2]; simp [hk]
      by_cases hr : ready k = true
      · simp [hr, hnone]
      · simp [hr, hnone]
    · have hck : ¬ c = k := fun hc => hkc hc.symm
      by_cases hr : ready k = true
      · simp only [hr, if_true, List.filter_cons, hkc, decide_False, Bool.false_eq_true,
          if_false, ih2, List.mem_cons, hck, false_or]
      · simp only [hr, Bool.false_eq_true, if_false, ih2, List.mem_cons, hck, false_or]

/-- C6: one call of `notifyClients(p)` sends to a channel `c` exactly the one
message `p` when `c` is registered and ready to receive, and nothing
otherwise (registered but not ready, or not registered); so no channel gets
`p` twice. -/
theorem notifyClients_delivers_once (h : hotReloadHandler) (p : GoString)
    (ready : Chan → Bool) (c : Chan) :
    (h.notifyClients p ready).filter (fun e => decide (e.1 = c)) =
      if c ∈ h.clients.keys ∧ ready c = true then [(c, p)] else [] :=
  notifyLoop_filter p ready c h.clients.keys h.clients.nodup

theorem ClientMap.eq_of_keys {m n : ClientMap} (hk : m.keys = n.keys) : m = n := by
  cases m; cases n
  simp only at hk
  subst hk
  rfl

theorem ClientMap.mem_set (m : ClientMap) (c x : Chan) :
    x ∈ (m.set c).keys ↔ x = c ∨ x ∈ m.keys := by
  unfold ClientMap.set
  by_cases hc : c ∈ m.keys
  · simp only [hc, dite_true]
    constructor
    · exact Or.inr
    · rintro (rfl | hx)
      · exact hc
      · exact hx
  · simp only [hc, dite_false, List.mem_cons]

theorem ClientMap.mem_delete (m : ClientMap) (c x : Chan) :
    x ∈ (m.delete c).keys ↔ x ∈ m.keys ∧ x ≠ c := by
  simp [ClientMap.delete]

theorem ClientMap.delete_of_not_mem (m : ClientMap) (c : Chan) (hc : c ∉ m.keys) :
    m.delete c = m := by
  apply ClientMap.eq_of_keys
  simp only [ClientMap.delete]
  rw [List.filter_eq_self]
  intro a ha
  have : a ≠ c := fun hac => hc (hac ▸ ha)
  simpa using this

/-- C7: deleting a channel that is absent leaves the registry as it is,
deleting twice is deleting once, and after registering two new distinct
channels and deleting one of them the registry holds the other one and what
it held before. -/
theorem unregister_idempotent (m : ClientMap) (c c1 c2 : Chan)
    (h1 : c1 ∉ m.keys) (h2 : c2 ∉ m.keys) (h12 : c1 ≠ c2) :
    (c ∉ m.keys → m.delete c = m) ∧
    (m.delete c).delete c = m.delete c ∧
    (∀ x, x ∈ (((m.set c1).set c2).delete c1).keys ↔ x = c2 ∨ x ∈ m.keys) ∧
    (∀ x, x ∈ (((m.set c1).set c2).delete c2).keys ↔ x = c1 ∨ x ∈ m.keys) := by
  refine ⟨ClientMap.delete_of_not_mem m c, ?_, ?_, ?_⟩
  · apply ClientMap.delete_of_not_mem
    intro hc
    exact ((ClientMap.mem_delete m c c).mp hc).2 rfl
  · intro x
    rw [ClientMap.mem_delete, ClientMap.mem_set, ClientMap.mem_set]
    constructor
    · rintro ⟨hx | hx | hx, hne⟩
      · exact Or.inl hx
      · exact absurd hx hne
      · exact Or.inr hx
    · rintro (hx | hx)
      · exact ⟨Or.inl hx, fun hc => h12 (hc.symm.trans hx)⟩
      · exact ⟨Or.inr (Or.inr hx), fun hc => h1 (hc ▸ hx)⟩
  · intro x
    rw [ClientMap.mem_delete, ClientMap.mem_set, ClientMap.mem_set]
    constructor
    · rintro ⟨hx | hx | hx, hne⟩
      · exact absurd hx hne
      · exact Or.inl hx
      · exact Or.inr hx
    · rintro (hx | hx)
      · exact ⟨Or.inr (Or.inl hx), fun hc => h12 (hx.symm.trans hc)⟩
      · exact ⟨Or.inr (Or.inr hx), fun hc => h2 (hc ▸ hx)⟩

/-- Witness of C7: a registry of three subscribers, an absent channel 9 and
two new channels 7 and 8. -/
theorem unregister_idempotent_witness :
    sampleClients.delete 9 = sampleClients ∧
    (sampleClients.delete 9).delete 9 = sampleClients.delete 9 ∧
    8 ∈ (((sampleClients.set 7).set 8).delete 7).keys ∧
    2 ∈ (((sampleClients.set 7).set 8).delete 7).keys ∧
    7 ∉ (((sampleClients.set 7).set 8).delete 7).keys :=
  ⟨(unregister_idempotent sampleClients 9 7 8 (by decide) (by decide) (by decide)).1
      (by decide),
   (unregister_idempotent sampleClients 9 7 8 (by decide) (by decide) (by decide)).2.1,
   ((unregister_idempotent sampleClients 9 7 8 (by decide) (by decide) (by decide)).2.2.1 8).mpr
      (Or.inl rfl),
   ((unregister_idempotent sampleClients 9 7 8 (by decide) (by decide) (by decide)).2.2.1 2).mpr
      (Or.inr (by decide)),
   fun hc =>
    (((unregister_idempotent sampleClients 9 7 8 (by decide) (by decide)
      (by decide)).2.2.1 7).mp hc).elim (by decide) (by decide)⟩

/-! ## The reload gateway -/

/-- The select loop only touches the registry when it returns, and then it
deletes the channel of the connection; it returns at the first ending event. -/
theorem streamLoop_registry (c : Chan) (evs : List StreamEvent) (s : Stream)
    (hs : s.returned = false) :
    ((streamLoop c evs s).returned = false → (streamLoop c evs s).clients = s.clients) ∧
    ((streamLoop c evs s).returned = true →
      (streamLoop c evs s).clients = s.clients.delete c) ∧
    ((streamLoop c evs s).returned = evs.any StreamEvent.ends) := by
  induction evs generalizing s with
  | nil => simp [streamLoop, hs]
  | cons e rest ih =>
    cases e with
    | message msg writeOk =>
      cases writeOk with
      | true =>
        have h2 := ih { s with w := s.w.Write (frame msg) } hs
        simpa [streamLoop, StreamEvent.ends] using h2
      | false => simp [streamLoop, StreamEvent.ends, Stream.close]
    | done => simp [streamLoop, StreamEvent.ends, Stream.close]
    | shutdown => simp [streamLoop, StreamEvent.ends, Stream.close]

/-- The call is the select loop started with the channel registered, nothing
written and the call not returned. -/
theorem handleHotReload_start (h : hotReloadHandler) (w : ResponseWriter) (messageChan : Chan) :
    ∃ s0 : Stream,
      (∀ evs, h.handleHotReload w messageChan evs = streamLoop messageChan evs s0) ∧
      s0.clients = h.clients.set messageChan ∧ s0.returned = false ∧ s0.w.body = w.body :=
  ⟨_, fun _ => rfl, rfl, rfl, rfl⟩

/-- C8: for every schedule of the gateway (hence at every moment of a run),
while `handleHotReload` has not returned the channel of the connection is in
the registry; once it has returned, which it does as soon as the request is
cancelled, the shutdown signal fires or a write fails, the channel is absent;
and at every moment the other channels are registered exactly as they were
before the call. -/
theorem handleHotReload_registry (h : hotReloadHandler) (w : ResponseWriter)
    (messageChan : Chan) (evs : List StreamEvent) :
    ((h.handleHotReload w messageChan evs).returned = false →
      messageChan ∈ (h.handleHotReload w messageChan evs).clients.keys) ∧
    ((h.handleHotReload w messageChan evs).returned = true →
      messageChan ∉ (h.handleHotReload w messageChan evs).clients.keys) ∧
    (∀ d, d ≠ messageChan →
      (d ∈ (h.handleHotReload w messageChan evs).clients.keys ↔ d ∈ h.clients.keys)) ∧
    (h.handleHotReload w messageChan evs).returned = evs.any StreamEvent.ends := by
  obtain ⟨s0, hrun, hcl, hret, _⟩ := handleHotReload_start h w messageChan
  rw [hrun evs]
  obtain ⟨ha, hb, hc⟩ := streamLoop_registry messageChan evs s0 hret
  refine ⟨?_, ?_, ?_, hc⟩
  · intro hr
    rw [ha hr, hcl, ClientMap.mem_set]
    exact Or.inl rfl
  · intro hr
    rw [hb hr, ClientMap.mem_delete]
    exact fun hx => hx.2 rfl
  · intro d hd
    cases hr : (streamLoop messageChan evs s0).returned with
    | false =>
      rw [ha hr, hcl, ClientMap.mem_set]
      exact ⟨fun hx => hx.resolve_left hd, Or.inr⟩
    | true =>
      rw [hb hr, hcl, ClientMap.mem_delete, ClientMap.mem_set]
      exact ⟨fun hx => hx.1.resolve_left hd, fun hx => ⟨Or.inr hx, hd⟩⟩

/-- Witness of C8: a connection on channel 7 joins three subscribers, gets
one message and is cancelled. -/
theorem handleHotReload_registry_witness :
    (7 ∈ ({ sampleHandler with clients := sampleClients }.handleHotReload
        ResponseWriter.fresh 7 [.message (lit "reload") true]).clients.keys) ∧
    (7 ∉ ({ sampleHandler with clients := sampleClients }.handleHotReload
        ResponseWriter.fresh 7 [.message (lit "reload") true, .done]).clients.keys) ∧
    (2 ∈ ({ sampleHandler with clients := sampleClients }.handleHotReload
        ResponseWriter.fresh 7 [.message (lit "reload") true, .done]).clients.keys) :=
  ⟨(handleHotReload_registry { sampleHandler with clients := sampleClients }
      ResponseWriter.fresh 7 [.message (lit "reload") true]).1 (by decide),
   (handleHotReload_registry { sampleHandler with clients := sampleClients }
      ResponseWriter.fresh 7 [.message (lit "reload") true, .done]).2.1 (by decide),
   ((handleHotReload_registry { sampleHandler with clients := sampleClients }
      ResponseWriter.fresh 7 [.message (lit "reload") true, .done]).2.2.1 2
        (by decide)).mpr (by decide)⟩

/-- The messages whose frames are written come first in the schedule. -/
theorem streamLoop_messages (c : Chan) (msgs : List GoString) (rest : List StreamEvent)
    (s : Stream) (hs : s.w.unlimited = true) :
    ∃ w2 : ResponseWriter, w2.body = s.w.body ++ (msgs.map frame).flatten ∧
      streamLoop c (msgs.map (fun x => StreamEvent.message x true) ++ rest) s =
        streamLoop c rest { s with w := w2 } := by
  induction msgs generalizing s with
  | nil => exact ⟨s.w, by simp, rfl⟩
  | cons m ms ih =>
    obtain ⟨hb, hu⟩ := Write_of_unlimited s.w (frame m) hs
    obtain ⟨w2, hw2, heq⟩ := ih { s with w := s.w.Write (frame m) } hu
    refine ⟨w2, ?_, ?_⟩
    · rw [hw2]
      simp [hb]
    · simpa [streamLoop] using heq

/-- An ending event makes the loop return at once, with nothing written. -/
theorem streamLoop_ends (c : Chan) (t : StreamEvent) (rest : List StreamEvent) (s : Stream)
    (ht : t.ends = true) : streamLoop c (t :: rest) s = s.close c := by
  cases t with
  | message msg writeOk =>
    cases writeOk with
    | true => simp [StreamEvent.ends] at ht
    | false => simp [streamLoop]
  | done => rfl
  | shutdown => rfl

/-- The bytes the loop writes, for every schedule: the frames of the messages
that come before the first ending event. -/
theorem streamLoop_body (c : Chan) (evs : List StreamEvent) (s : Stream)
    (hs : s.w.unlimited = true) :
    (streamLoop c evs s).w.body =
      s.w.body ++ (evs.takeWhile (fun e => !e.ends)).flatMap (fun e =>
        match e with
        | .message msg _ => lit "data: " ++ msg ++ lit "\n\n"
        | _ => []) := by
  induction evs generalizing s with
  | nil => simp [streamLoop]
  | cons e rest ih =>
    cases e with
    | message msg writeOk =>
      cases writeOk with
      | true =>
        obtain ⟨hb, hu⟩ := Write_of_unlimited s.w (frame msg) hs
        have h2 := ih { s with w := s.w.Write (frame msg) } hu
        simp only [streamLoop, if_true, h2, hb]
        simp [StreamEvent.ends, frame, List.flatMap_cons]
      | false => simp [streamLoop, StreamEvent.ends, Stream.close]
    | done => simp [streamLoop, StreamEvent.ends, Stream.close]
    | shutdown => simp [streamLoop, StreamEvent.ends, Stream.close]

/-- The call starts the select loop on a writer that takes every byte when
the writer handed to it does: the three headers it sets are not the content
length. -/
theorem handleHotReload_start_unlimited (h : hotReloadHandler) (w : ResponseWriter)
    (messageChan : Chan) (hw : w.unlimited = true) :
    ∃ s0 : Stream,
      (∀ evs, h.handleHotReload w messageChan evs = streamLoop messageChan evs s0) ∧
      s0.w.body = w.body ∧ s0.w.unlimited = true := by
  refine ⟨_, fun _ => rfl, rfl, ?_⟩
  have h1 : ¬ (lit "Content-Length" = lit "Content-Type") := by decide
  have h2 : ¬ (lit "Content-Length" = lit "Cache-Control") := by decide
  have h3 : ¬ (lit "Content-Length" = lit "Connection") := by decide
  unfold ResponseWriter.unlimited at hw ⊢
  simpa [Header.Get, Header.Set, h1, h2, h3] using hw

/-- C9: on a writer that takes every byte (as the writer of a new request
does), for every schedule the bytes written to the connection are exactly
the frames `"data: " ++ m ++ "\n\n"` of the messages received before the first
ending event (cancellation, shutdown or failed write), in the order received.
So a run of messages `msgs` whose writes succeed has written their frames,
during the run and when it is ended by any ending event, after which nothing
more is written whatever follows; and the frame of `"reload"` is
`"data: reload\n\n"`. -/
theorem handleHotReload_frames (h : hotReloadHandler) (w : ResponseWriter)
    (messageChan : Chan) (evs : List StreamEvent) (msgs : List GoString) (t : StreamEvent)
    (rest : List StreamEvent) (hw : w.unlimited = true) (ht : t.ends = true) :
    (h.handleHotReload w messageChan evs).w.body =
      w.body ++ (evs.takeWhile (fun e => !e.ends)).flatMap (fun e =>
        match e with
        | .message msg _ => lit "data: " ++ msg ++ lit "\n\n"
        | _ => []) ∧
    (h.handleHotReload w messageChan
        (msgs.map (fun x => StreamEvent.message x true))).w.body =
      w.body ++ (msgs.map (fun x => lit "data: " ++ x ++ lit "\n\n")).flatten ∧
    (h.handleHotReload w messageChan [.message (lit "reload") true]).w.body =
      w.body ++ lit "data: reload\n\n" ∧
    (h.handleHotReload w messageChan
        (msgs.map (fun x => StreamEvent.message x true) ++ t :: rest)).w.body =
      w.body ++ (msgs.map (fun x => lit "data: " ++ x ++ lit "\n\n")).flatten ∧
    (h.handleHotReload w messageChan
        (msgs.map (fun x => StreamEvent.message x true) ++ t :: rest)).returned = true := by
  have hframe : (fun x => lit "data: " ++ x ++ lit "\n\n") = frame := rfl
  have hreload : frame (lit "reload") = lit "data: reload\n\n" := by decide
  obtain ⟨s0, hrun, hbody, hu⟩ := handleHotReload_start_unlimited h w messageChan hw
  simp only [hrun]
  refine ⟨?_, ?_, ?_, ?_, ?_⟩
  · rw [streamLoop_body messageChan evs s0 hu, hbody]
  · rw [hframe]
    obtain ⟨w2, hw2, heq⟩ := streamLoop_messages messageChan msgs [] s0 hu
    rw [List.append_nil] at heq
    rw [heq, ← hbody, ← hw2]
    rfl
  · obtain ⟨hb, _⟩ := Write_of_unlimited s0.w (frame (lit "reload")) hu
    simp only [streamLoop, if_true, hb, hbody]
    rw [hreload]
  · rw [hframe]
    obtain ⟨w2, hw2, heq⟩ := streamLoop_messages messageChan msgs (t :: rest) s0 hu
    rw [heq, streamLoop_ends messageChan t rest _ ht, ← hbody, ← hw2]
    rfl
  · obtain ⟨w2, _, heq⟩ := streamLoop_messages messageChan msgs (t :: rest) s0 hu
    rw [heq, streamLoop_ends messageChan t rest _ ht]
    rfl

/-- Witness of C9: on the writer of a new request, two messages, then the
cancellation of the request, then a message that comes too late. -/
theorem handleHotReload_frames_witness :
    (sampleHandler.handleHotReload ResponseWriter.fresh 7
        ([lit "reload", lit "again"].map (fun x => StreamEvent.message x true) ++
          .done :: [.message (lit "late") true])).w.body =
      ResponseWriter.fresh.body ++
        ([lit "reload", lit "again"].map (fun x => lit "data: " ++ x ++ lit "\n\n")).flatten ∧
    (sampleHandler.handleHotReload ResponseWriter.fresh 7
        ([lit "reload", lit "again"].map (fun x => StreamEvent.message x true) ++
          .done :: [.message (lit "late") true])).returned = true :=
  (handleHotReload_frames sampleHandler ResponseWriter.fresh 7 [] [lit "reload", lit "again"]
    .done [.message (lit "late") true] (by decide) (by decide)).2.2.2

/-! ## The watch loop -/

theorem watchExtLoop_eq (event : Event) (exts : List GoString) :
    watchExtLoop event exts =
      if event.Has fsnotify.Write = true ∧ ∃ ext ∈ exts, ext <:+ event.Name
        then [lit "reload"] else [] := by
  induction exts with
  | nil => simp [watchExtLoop]
  | cons ext rest ih =>
    unfold watchExtLoop
    by_cases hw : event.Has fsnotify.Write = true
    · by_cases hs : ext <:+ event.Name
      · have : HasSuffix event.Name ext = true := by
          unfold HasSuffix; simpa using hs
        simp [hw, hs, this]
      · have : HasSuffix event.Name ext = false := by
          apply Bool.eq_false_iff.mpr
          intro hc
          exact hs (by unfold HasSuffix at hc; simpa using hc)
        simp [hw, hs, this, ih]
    · simp [hw, ih]

/-- C10: for one event the watch loop calls `notifyClients("reload")` once
when the event has the write bit and its path ends, byte for byte, with one
of the watched extensions, and not at all otherwise; never more than once,
however many extensions match.  This holds for an event anywhere in the run
of `watchFiles`. -/
theorem onEvent_broadcasts_once (h : hotReloadHandler) (event : Event)
    (rest : List WatchInput) (s : Watch) :
    h.onEvent event =
      (if event.Has fsnotify.Write = true ∧ ∃ ext ∈ h.watchExts, ext <:+ event.Name
        then [lit "reload"] else []) ∧
    (h.onEvent event).length ≤ 1 ∧
    watchLoop h (.event event :: rest) s =
      watchLoop h rest { s with notified := s.notified ++
        (if event.Has fsnotify.Write = true ∧ ∃ ext ∈ h.watchExts, ext <:+ event.Name
          then [lit "reload"] else []) } ∧
    (h.watchFiles [.event event]).notified =
      (if event.Has fsnotify.Write = true ∧ ∃ ext ∈ h.watchExts, ext <:+ event.Name
        then [lit "reload"] else []) := by
  have hev : h.onEvent event =
      (if event.Has fsnotify.Write = true ∧ ∃ ext ∈ h.watchExts, ext <:+ event.Name
        then [lit "reload"] else []) := by
    unfold hotReloadHandler.onEvent
    exact watchExtLoop_eq event h.watchExts
  refine ⟨hev, ?_, ?_, ?_⟩
  · rw [hev]
    split <;> simp
  · rw [← hev]
    rfl
  · rw [← hev]
    simp [hotReloadHandler.watchFiles, watchLoop]

/-- C11: an error value received from the watcher is skipped: the loop goes on
with the inputs that follow, so a run behaves as the run without its error
values (same broadcasts, same end); and the loop has returned exactly when
an input was the closing of the event or error channel or the shutdown
signal. -/
theorem watchFiles_error_is_skipped (h : hotReloadHandler) (err : GoString)
    (inputs rest : List WatchInput) (s : Watch) :
    watchLoop h (.error err :: rest) s = watchLoop h rest s ∧
    watchLoop h (inputs.filter (fun i => !i.isError)) s = watchLoop h inputs s ∧
    (h.watchFiles inputs).returned = inputs.any WatchInput.stops ∧
    (h.watchFiles (inputs ++ [.error err])).returned = (h.watchFiles inputs).returned ∧
    (h.watchFiles (inputs ++ [.error err])).notified = (h.watchFiles inputs).notified := by
  have hfilter : ∀ (l : List WatchInput) (t : Watch),
      watchLoop h (l.filter (fun i => !i.isError)) t = watchLoop h l t := by
    intro l
    induction l with
    | nil => intro t; rfl
    | cons i l ih =>
      intro t
      cases i with
      | error e =>
        rw [List.filter_cons_of_neg (by simp [WatchInput.isError]), ih]
        rfl
      | event e =>
        rw [List.filter_cons_of_pos (by simp [WatchInput.isError])]
        simp only [watchLoop, ih]
      | eventsClosed =>
        rw [List.filter_cons_of_pos (by simp [WatchInput.isError])]
        simp only [watchLoop]
      | errorsClosed =>
        rw [List.filter_cons_of_pos (by simp [WatchInput.isError])]
        simp only [watchLoop]
      | shutdown =>
        rw [List.filter_cons_of_pos (by simp [WatchInput.isError])]
        simp only [watchLoop]
  have hret : ∀ (l : List WatchInput) (t : Watch),
      (watchLoop h l t).returned = (t.returned || l.any WatchInput.stops) := by
    intro l
    induction l with
    | nil => intro t; simp [watchLoop]
    | cons i l ih =>
      intro t
      cases i <;> simp [WatchInput.stops, watchLoop, ih]
  have happ : ∀ (l : List WatchInput) (t : Watch),
      watchLoop h (l ++ [.error err]) t = watchLoop h l t := by
    intro l
    induction l with
    | nil => intro t; rfl
    | cons i l ih =>
      intro t
      cases i <;> simp [watchLoop, ih]
  refine ⟨rfl, hfilter inputs s, ?_, ?_, ?_⟩
  · unfold hotReloadHandler.watchFiles
    rw [hret]
    simp
  · unfold hotReloadHandler.watchFiles
    rw [happ]
  · unfold hotReloadHandler.watchFiles
    rw [happ]


/-! ## `setupWatcher` -/

theorem Base_append_singleton (path : Path) (name : GoString) :
    filepath.Base (path ++ [name]) = name := by
  simp [filepath.Base]

theorem walk_watchFn_file (addFails : Path → Bool) (path : Path) (data : GoString)
    (ws : List Path) : walk (watchFn addFails) path (.file data) ws = (ws, none) := by
  simp [walk, watchFn, Node.IsDir]

mutual
/-- What the walk of `setupWatcher` adds for a node: only directories of the
tree with no hidden name from the node down, and all of them unless the walk
ends on an error. -/
theorem walk_watchFn (addFails : Path → Bool) : ∀ (node : Node) (path : Path) (ws : List Path),
    (∀ p ∈ (walk (watchFn addFails) path node ws).1, p ∈ ws ∨
      ∃ q ∈ node.dirs, p = path ++ q ∧ hiddenName (filepath.Base path) = false ∧
        ∀ c ∈ q, hiddenName c = false) ∧
    (∀ p ∈ ws, p ∈ (walk (watchFn addFails) path node ws).1) ∧
    ((walk (watchFn addFails) path node ws).2 ≠ some .other →
      hiddenName (filepath.Base path) = false →
      ∀ q ∈ node.dirs, (∀ c ∈ q, hiddenName c = false) →
        path ++ q ∈ (walk (watchFn addFails) path node ws).1)
  | .file data, path, ws => by
    rw [walk_watchFn_file]
    simp [Node.dirs]
  | .broken, path, ws => by
    simp [walk, watchFn, Node.dirs]
  | .dir readErr entries, path, ws => by
    have ih := walkEntries_watchFn addFails entries path (ws ++ [path])
    cases readErr with
    | true =>
      have hw : walk (watchFn addFails) path (.dir true entries) ws = (ws, some .other) := by
        simp [walk, watchFn]
      rw [hw]
      exact ⟨fun p hp => Or.inl hp, fun p hp => hp, fun hne => absurd rfl hne⟩
    | false =>
      by_cases hh : (filepath.Base path).head? = some 46
      · have hhid : hiddenName (filepath.Base path) = true := by
          simp [hiddenName, hh]
        have hw : walk (watchFn addFails) path (.dir false entries) ws =
            (ws, some .SkipDir) := by
          simp [walk, watchFn, Node.IsDir, hh]
        rw [hw]
        refine ⟨fun p hp => Or.inl hp, fun p hp => hp, fun _ hf => ?_⟩
        rw [hhid] at hf
        exact Bool.noConfusion hf
      · have hhid : hiddenName (filepath.Base path) = false := by
          simp [hiddenName, hh]
        by_cases ha : addFails path = true
        · have hw : walk (watchFn addFails) path (.dir false entries) ws =
              (ws, some .other) := by
            simp [walk, watchFn, Node.IsDir, hh, ha]
          rw [hw]
          exact ⟨fun p hp => Or.inl hp, fun p hp => hp, fun hne => absurd rfl hne⟩
        · have hw : walk (watchFn addFails) path (.dir false entries) ws =
              walkEntries (watchFn addFails) path entries (ws ++ [path]) := by
            simp [walk, watchFn, Node.IsDir, hh, ha]
          rw [hw]
          obtain ⟨h1, h2, h3⟩ := ih
          refine ⟨?_, ?_, ?_⟩
          · intro p hp
            rcases h1 p hp with hws | ⟨q, hq, hpq, hc⟩
            · rcases List.mem_append.mp hws with hws | hws
              · exact Or.inl hws
              · refine Or.inr ⟨[], by simp [Node.dirs], ?_, hhid, by simp⟩
                simpa using hws
            · exact Or.inr ⟨q, by simp [Node.dirs, hq], hpq, hhid, hc⟩
          · intro p hp
            exact h2 p (List.mem_append.mpr (Or.inl hp))
          · intro hne _ q hq hc
            simp only [Node.dirs, List.mem_cons] at hq
            rcases hq with rfl | hq
            · rw [List.append_nil]
              exact h2 path (by simp)
            · exact h3 hne q hq hc
/-- What the walk of `setupWatcher` adds for the entries of a directory. -/
theorem walkEntries_watchFn (addFails : Path → Bool) :
    ∀ (es : Entries) (path : Path) (ws : List Path),
    (∀ p ∈ (walkEntries (watchFn addFails) path es ws).1, p ∈ ws ∨
      ∃ q ∈ es.dirs, p = path ++ q ∧ ∀ c ∈ q, hiddenName c = false) ∧
    (∀ p ∈ ws, p ∈ (walkEntries (watchFn addFails) path es ws).1) ∧
    ((walkEntries (watchFn addFails) path es ws).2 ≠ some .other →
      ∀ q ∈ es.dirs, (∀ c ∈ q, hiddenName c = false) →
        path ++ q ∈ (walkEntries (watchFn addFails) path es ws).1)
  | .nil, path, ws => by
    simp [walkEntries, Entries.dirs]
  | .cons name node rest, path, ws => by
    obtain ⟨n1, n2, n3⟩ := walk_watchFn addFails node (path ++ [name]) ws
    rw [Base_append_singleton] at n1 n3
    have hsound : ∀ p ∈ (walk (watchFn addFails) (path ++ [name]) node ws).1, p ∈ ws ∨
        ∃ q ∈ (Entries.cons name node rest).dirs, p = path ++ q ∧
          ∀ c ∈ q, hiddenName c = false := by
      intro p hp
      rcases n1 p hp with hws | ⟨q, hq, hpq, hn, hc⟩
      · exact Or.inl hws
      · refine Or.inr ⟨name :: q, ?_, ?_, ?_⟩
        · simp only [Entries.dirs, List.mem_append, List.mem_map]
          exact Or.inl ⟨q, hq, rfl⟩
        · rw [hpq]; simp
        · intro c hcm
          rcases List.mem_cons.mp hcm with rfl | hcm
          · exact hn
          · exact hc c hcm
    have hcont : ∀ r1 : List Path × Option WalkErr,
        r1 = walk (watchFn addFails) (path ++ [name]) node ws → r1.2 ≠ some .other →
        (∀ p ∈ (walkEntries (watchFn addFails) path rest r1.1).1, p ∈ ws ∨
          ∃ q ∈ (Entries.cons name node rest).dirs, p = path ++ q ∧
            ∀ c ∈ q, hiddenName c = false) ∧
        (∀ p ∈ ws, p ∈ (walkEntries (watchFn addFails) path rest r1.1).1) ∧
        ((walkEntries (watchFn addFails) path rest r1.1).2 ≠ some .other →
          ∀ q ∈ (Entries.cons name node rest).dirs, (∀ c ∈ q, hiddenName c = false) →
            path ++ q ∈ (walkEntries (watchFn addFails) path rest r1.1).1) := by
      intro r1 hr1 hne
      obtain ⟨e1, e2, e3⟩ := walkEntries_watchFn addFails rest path r1.1
      refine ⟨?_, ?_, ?_⟩
      · intro p hp
        rcases e1 p hp with hin | ⟨q, hq, hpq, hc⟩
        · exact hsound p (hr1 ▸ hin)
        · refine Or.inr ⟨q, ?_, hpq, hc⟩
          simp only [Entries.dirs, List.mem_append]
          exact Or.inr hq
      · intro p hp
        exact e2 p (hr1 ▸ n2 p hp)
      · intro hne2 q hq hc
        simp only [Entries.dirs, List.mem_append, List.mem_map] at hq
        rcases hq with ⟨q1, hq1, rfl⟩ | hq
        · have hn : hiddenName name = false := hc name (by simp)
          have hmem := n3 (hr1 ▸ hne) hn q1 hq1 (fun c hcm => hc c (by simp [hcm]))
          have : path ++ name :: q1 = path ++ [name] ++ q1 := by simp
          rw [this]
          exact e2 _ (hr1 ▸ hmem)
        · exact e3 hne2 q hq hc
    rcases hr : walk (watchFn addFails) (path ++ [name]) node ws with ⟨s1, e⟩
    cases e with
    | none =>
      have hc := hcont (s1, none) hr.symm (by simp)
      simpa [walkEntries, hr] using hc
    | some e =>
      cases e with
      | other =>
        have hw : walkEntries (watchFn addFails) path (.cons name node rest) ws =
            (s1, some .other) := by
          simp [walkEntries, hr]
        rw [hw]
        refine ⟨?_, ?_, by simp⟩
        · intro p hp
          exact hsound p (by rw [hr]; exact hp)
        · intro p hp
          have := n2 p hp
          rw [hr] at this
          exact this
      | SkipDir =>
        cases node with
        | file data =>
          rw [walk_watchFn_file] at hr
          simp at hr
        | broken =>
          have hc := hcont (s1, some .SkipDir) hr.symm (by simp)
          simpa [walkEntries, hr, Node.isFile] using hc
        | dir readErr entries =>
          have hc := hcont (s1, some .SkipDir) hr.symm (by simp)
          simpa [walkEntries, hr, Node.isFile] using hc
end

mutual
/-- On a healthy tree, with a watcher that accepts every path, the walk of
`setupWatcher` meets no error other than `SkipDir`. -/
theorem walk_watchFn_healthy (addFails : Path → Bool) (hadd : ∀ p, addFails p = false) :
    ∀ (node : Node) (path : Path) (ws : List Path), node.healthy = true →
      (walk (watchFn addFails) path node ws).2 ≠ some .other
  | .file data, path, ws, _ => by
    rw [walk_watchFn_file]
    simp
  | .broken, path, ws, hh => by
    simp [Node.healthy] at hh
  | .dir readErr entries, path, ws, hh => by
    simp only [Node.healthy, Bool.and_eq_true, Bool.not_eq_true'] at hh
    obtain ⟨hr, he⟩ := hh
    subst hr
    have ih := walkEntries_watchFn_healthy addFails hadd entries path (ws ++ [path]) he
    by_cases hd : (filepath.Base path).head? = some 46
    · simp [walk, watchFn, Node.IsDir, hd]
    · have hw : walk (watchFn addFails) path (.dir false entries) ws =
          walkEntries (watchFn addFails) path entries (ws ++ [path]) := by
        simp [walk, watchFn, Node.IsDir, hd, hadd path]
      rw [hw]
      exact ih
/-- The same for the entries of a directory. -/
theorem walkEntries_watchFn_healthy (addFails : Path → Bool)
    (hadd : ∀ p, addFails p = false) :
    ∀ (es : Entries) (path : Path) (ws : List Path), es.healthy = true →
      (walkEntries (watchFn addFails) path es ws).2 ≠ some .other
  | .nil, path, ws, _ => by
    simp [walkEntries]
  | .cons name node rest, path, ws, hh => by
    simp only [Entries.healthy, Bool.and_eq_true] at hh
    obtain ⟨hn, hr⟩ := hh
    have h1 := walk_watchFn_healthy addFails hadd node (path ++ [name]) ws hn
    rcases hw : walk (watchFn addFails) (path ++ [name]) node ws with ⟨s1, e⟩
    rw [hw] at h1
    have h2 := walkEntries_watchFn_healthy addFails hadd rest path s1 hr
    cases e with
    | none => simpa [walkEntries, hw] using h2
    | some e =>
      cases e with
      | other => exact absurd rfl h1
      | SkipDir =>
        cases node with
        | file data =>
          rw [walk_watchFn_file] at hw
          simp at hw
        | broken => simpa [walkEntries, hw, Node.isFile] using h2
        | dir readErr entries => simpa [walkEntries, hw, Node.isFile] using h2
end

/-- The paths a successful `setupWatcher` registers: the directories of the
tree that have no hidden name from the served directory down. -/
theorem setupWatcher_mem (newWatcherFails : Bool) (addFails : Path → Bool) (dir : Path)
    (tree : Node) (ws : List Path)
    (hs : setupWatcher newWatcherFails addFails dir tree = some ws) (p : Path) :
    p ∈ ws ↔ ∃ q ∈ tree.dirs, p = dir ++ q ∧ hiddenName (filepath.Base dir) = false ∧
      ∀ c ∈ q, hiddenName c = false := by
  obtain ⟨h1, _, h3⟩ := walk_watchFn addFails tree dir []
  unfold setupWatcher filepath.Walk at hs
  cases hn : newWatcherFails with
  | true => simp [hn] at hs
  | false =>
    simp only [hn, Bool.false_eq_true, if_false] at hs
    rcases hw : walk (watchFn addFails) dir tree [] with ⟨s1, e⟩
    rw [hw] at hs h1 h3
    have hne : e ≠ some .other ∧ s1 = ws := by
      cases e with
      | none => simpa using hs
      | some e =>
        cases e with
        | SkipDir => simpa using hs
        | other => simp at hs
    obtain ⟨hne, rfl⟩ := hne
    constructor
    · intro hp
      rcases h1 p hp with hnil | hq
      · simp at hnil
      · exact hq
    · rintro ⟨q, hq, rfl, hb, hc⟩
      exact h3 hne hb q hq hc

/-- C12: when `setupWatcher` succeeds, the paths registered with the watcher
are exactly the directories of the tree that have no name beginning with a
dot from the served directory down to themselves: no hidden directory is
registered, nothing below a hidden directory is registered, and every other
directory is.  It succeeds on every tree that can be read when the watcher
can be created and accepts every path. -/
theorem setupWatcher_skips_hidden (newWatcherFails : Bool) (addFails : Path → Bool)
    (dir : Path) (tree : Node) :
    (∀ ws, setupWatcher newWatcherFails addFails dir tree = some ws →
      (∀ p, p ∈ ws ↔ ∃ q ∈ tree.dirs, p = dir ++ q ∧
        hiddenName (filepath.Base dir) = false ∧ ∀ c ∈ q, hiddenName c = false) ∧
      (∀ p ∈ ws, hiddenName (filepath.Base p) = false)) ∧
    (newWatcherFails = false → (∀ p, addFails p = false) → tree.healthy = true →
      (setupWatcher newWatcherFails addFails dir tree).isSome = true) := by
  refine ⟨fun ws hs => ⟨setupWatcher_mem newWatcherFails addFails dir tree ws hs, ?_⟩, ?_⟩
  · intro p hp
    obtain ⟨q, _, rfl, hb, hc⟩ :=
      (setupWatcher_mem newWatcherFails addFails dir tree ws hs p).mp hp
    rcases List.eq_nil_or_concat q with rfl | ⟨q1, c, rfl⟩
    · simpa using hb
    · rw [List.concat_eq_append, ← List.append_assoc, Base_append_singleton]
      exact hc c (by simp)
  · intro hn hadd hh
    subst hn
    have h := walk_watchFn_healthy addFails hadd tree dir [] hh
    unfold setupWatcher filepath.Walk
    rcases hw : walk (watchFn addFails) dir tree [] with ⟨s1, e⟩
    rw [hw] at h
    cases e with
    | none => simp
    | some e =>
      cases e with
      | SkipDir => simp
      | other => exact absurd rfl h

/-- Witness of C12: the sample tree served at `/srv`. -/
theorem setupWatcher_skips_hidden_witness :
    [lit "srv", lit "a"] ∈ [[lit "srv"], [lit "srv", lit "a"], [lit "srv", lit "b"]] ∧
    hiddenName (filepath.Base [lit "srv", lit "b"]) = false ∧
    (setupWatcher false (fun _ => false) [lit "srv"] sampleTree).isSome = true :=
  ⟨(((setupWatcher_skips_hidden false (fun _ => false) [lit "srv"] sampleTree).1
      [[lit "srv"], [lit "srv", lit "a"], [lit "srv", lit "b"]] (by decide)).1
        [lit "srv", lit "a"]).mpr ⟨[lit "a"], by decide, by decide, by decide, by decide⟩,
   ((setupWatcher_skips_hidden false (fun _ => false) [lit "srv"] sampleTree).1
      [[lit "srv"], [lit "srv", lit "a"], [lit "srv", lit "b"]] (by decide)).2
        [lit "srv", lit "b"] (by decide),
   (setupWatcher_skips_hidden false (fun _ => false) [lit "srv"] sampleTree).2
      rfl (fun _ => rfl) (by decide)⟩

/-- Counterexample to C18 as stated: a served directory named `.site` that
can be read; `setupWatcher` succeeds and registers nothing. -/
theorem setupWatcher_hidden_root_watches_nothing :
    sampleTree.IsDir = true ∧
    setupWatcher false (fun _ => false) [lit "home", lit ".site"] sampleTree = some [] := by
  decide

/-- C18, amended: when the name of the served directory does not begin with
a dot, a successful `setupWatcher` has registered the served directory
itself, so the list of watched directories is not empty. -/
theorem setupWatcher_registers_root (newWatcherFails : Bool) (addFails : Path → Bool)
    (dir : Path) (tree : Node) (ws : List Path)
    (hdir : tree.IsDir = true) (hname : hiddenName (filepath.Base dir) = false)
    (hs : setupWatcher newWatcherFails addFails dir tree = some ws) :
    dir ∈ ws ∧ ws ≠ [] := by
  have hmem : dir ∈ ws := by
    refine (setupWatcher_mem newWatcherFails addFails dir tree ws hs dir).mpr
      ⟨[], ?_, by simp, hname, by simp⟩
    cases tree with
    | file data => simp [Node.IsDir] at hdir
    | broken => simp [Node.IsDir] at hdir
    | dir readErr entries => simp [Node.dirs]
  exact ⟨hmem, List.ne_nil_of_mem hmem⟩

/-- Witness of C18: the sample tree served at `/srv`. -/
theorem setupWatcher_registers_root_witness :
    [lit "srv"] ∈ [[lit "srv"], [lit "srv", lit "a"], [lit "srv", lit "b"]] ∧
    [[lit "srv"], [lit "srv", lit "a"], [lit "srv", lit "b"]] ≠ [] :=
  setupWatcher_registers_root false (fun _ => false) [lit "srv"] sampleTree
    [[lit "srv"], [lit "srv", lit "a"], [lit "srv", lit "b"]] (by decide) (by decide)
    (by decide)


end Httpd

namespace Fetchers

open Httpd

/-! ## Lemmas on strings -/

theorem LastIndexByte_of_not_mem (c : UInt8) (s : GoString) (hc : c ∉ s) :
    LastIndexByte s c = -1 := by
  induction s with
  | nil => rfl
  | cons b t ih =>
    have hbc : ¬ b = c := fun h => hc (by simp [h])
    have ht : c ∉ t := fun h => hc (by simp [h])
    unfold LastIndexByte
    rw [ih ht]
    simp [hbc]

theorem LastIndexByte_append (c : UInt8) (a b : GoString) (hc : c ∉ b) :
    LastIndexByte (a ++ c :: b) c = a.length := by
  induction a with
  | nil =>
    simp only [List.nil_append, List.length_nil]
    unfold LastIndexByte
    rw [LastIndexByte_of_not_mem c b hc]
    simp
  | cons x a ih =>
    rw [List.cons_append]
    unfold LastIndexByte
    rw [ih]
    simp only [List.length_cons, Nat.cast_add, Nat.cast_one]
    have : (0 : Int) ≤ (a.length : Int) := Int.ofNat_nonneg _
    simp [this]

theorem LastIndex_singleton (c : UInt8) (s : GoString) :
    LastIndex s [c] = LastIndexByte s c := by
  induction s with
  | nil => simp [LastIndex, LastIndexByte]
  | cons b t ih =>
    unfold LastIndex LastIndexByte
    rw [ih]
    by_cases hbc : b = c
    · simp [hbc, List.isPrefixOf]
    · have hcb : ¬ c = b := fun h => hbc h.symm
      simp [hbc, hcb, List.isPrefixOf]

theorem lit_at : lit "@" = [64] := by decide

theorem Split_of_not_mem (sep : UInt8) (s : GoString) (hs : sep ∉ s) : Split s sep = [s] := by
  induction s with
  | nil => rfl
  | cons b t ih =>
    have hb : ¬ b = sep := fun h => hs (by simp [h])
    have ht : sep ∉ t := fun h => hs (by simp [h])
    unfold Split
    rw [ih ht]
    simp [hb]

theorem Split_append (sep : UInt8) (s t : GoString) (hs : sep ∉ s) :
    Split (s ++ sep :: t) sep = s :: Split t sep := by
  induction s with
  | nil => simp [Split]
  | cons b s ih =>
    have hb : ¬ b = sep := fun h => hs (by simp [h])
    have ht : sep ∉ s := fun h => hs (by simp [h])
    rw [List.cons_append, Split.eq_2]
    simp only [hb, if_false]
    rw [ih ht]

theorem Split_joinSegments (segs : List GoString) (hne : segs ≠ [])
    (hseg : ∀ s ∈ segs, (58 : UInt8) ∉ s) : Split (joinSegments segs) 58 = segs := by
  induction segs with
  | nil => exact absurd rfl hne
  | cons s rest ih =>
    cases rest with
    | nil => exact Split_of_not_mem 58 s (hseg s (by simp))
    | cons s2 rest2 =>
      have h1 : joinSegments (s :: s2 :: rest2) = s ++ 58 :: joinSegments (s2 :: rest2) := rfl
      rw [h1, Split_append 58 s _ (hseg s (by simp)),
        ih (by simp) (fun x hx => hseg x (by simp [hx]))]

/-! ## The `npm` command -/

theorem npmArgument_of_append (name version : GoString) (hname : name ≠ [])
    (hver : (64 : UInt8) ∉ version) :
    npmArgument (name ++ lit "@" ++ version) = (name, version) := by
  have hlen : 0 < name.length := List.length_pos.mpr hname
  unfold npmArgument
  rw [lit_at, List.append_assoc, List.singleton_append, LastIndexByte_append 64 name version hver]
  have hpos : ¬ ((name.length : Int) ≤ 0) := by omega
  simp only [hpos, if_false]
  have h1 : ((name.length : Int)).toNat = name.length := Int.toNat_ofNat _
  have h2 : ((name.length : Int) + 1).toNat = name.length + 1 := by omega
  rw [h1, h2, List.take_left]
  have h3 : name ++ 64 :: version = (name ++ [64]) ++ version := by simp
  have h4 : name.length + 1 = (name ++ [64]).length := by simp
  rw [h3, h4, List.drop_left]

theorem npmArgument_of_not_mem (pkg : GoString) (hpkg : (64 : UInt8) ∉ pkg) :
    npmArgument pkg = (pkg, []) := by
  unfold npmArgument
  rw [LastIndexByte_of_not_mem 64 pkg hpkg]
  simp

theorem npmArgument_of_leading (rest : GoString) (hrest : (64 : UInt8) ∉ rest) :
    npmArgument (lit "@" ++ rest) = (lit "@" ++ rest, []) := by
  unfold npmArgument
  rw [lit_at]
  have h := LastIndexByte_append 64 [] rest hrest
  simp only [List.nil_append, List.length_nil] at h
  rw [List.singleton_append, h]
  simp

/-- C13: an argument whose last `@` is not at its beginning, that is
`name ++ "@" ++ version` with a non-empty `name` and no `@` in `version`, is
split into `name` and `version`; an argument without `@`, or whose only `@`
is the first byte as in `@babylonjs/core`, is the package name whole with an
empty version, and `fetchNPM` then takes the latest version of the registry.
So for a name with a first character and no `@` after it and a version
without `@`, the argument `name ++ "@" ++ version` gives back the pair. -/
theorem npmArgument_splits_at_last_at (pkg name version rest tl : GoString) (c : UInt8)
    (hname : name ≠ []) (hver : (64 : UInt8) ∉ version) :
    npmArgument (name ++ lit "@" ++ version) = (name, version) ∧
    ((64 : UInt8) ∉ pkg → npmArgument pkg = (pkg, [])) ∧
    ((64 : UInt8) ∉ rest → npmArgument (lit "@" ++ rest) = (lit "@" ++ rest, [])) ∧
    npmArgument (lit "@babylonjs/core") = (lit "@babylonjs/core", []) ∧
    ((64 : UInt8) ∉ tl →
      npmArgument ((c :: tl) ++ lit "@" ++ version) = (c :: tl, version)) ∧
    (∀ (env : NpmEnv) (out mirror : GoString),
      fetchNPM env out mirror pkg [] =
        (env.latest (mirror ++ lit "/" ++ pkg)).bind (fetchNPMVersion env out mirror pkg)) := by
  refine ⟨npmArgument_of_append name version hname hver, npmArgument_of_not_mem pkg,
    npmArgument_of_leading rest, by decide, ?_, ?_⟩
  · intro _
    exact npmArgument_of_append (c :: tl) version (by simp) hver
  · intro env out mirror
    unfold fetchNPM
    simp only [if_true]
    cases env.latest (mirror ++ lit "/" ++ pkg) <;> rfl

/-- Witness of C13: `lodash@4.17.21` and the scoped `@babylonjs/core@8.27.0`. -/
theorem npmArgument_splits_at_last_at_witness :
    npmArgument (lit "lodash" ++ lit "@" ++ lit "4.17.21") = (lit "lodash", lit "4.17.21") ∧
    npmArgument (lit "left-pad") = (lit "left-pad", []) ∧
    npmArgument ((64 :: lit "babylonjs/core") ++ lit "@" ++ lit "4.17.21") =
      (64 :: lit "babylonjs/core", lit "4.17.21") :=
  ⟨(npmArgument_splits_at_last_at (lit "left-pad") (lit "lodash") (lit "4.17.21") []
      (lit "babylonjs/core") 64 (by decide) (by decide)).1,
   (npmArgument_splits_at_last_at (lit "left-pad") (lit "lodash") (lit "4.17.21") []
      (lit "babylonjs/core") 64 (by decide) (by decide)).2.1 (by decide),
   (npmArgument_splits_at_last_at (lit "left-pad") (lit "lodash") (lit "4.17.21") []
      (lit "babylonjs/core") 64 (by decide) (by decide)).2.2.2.2.1 (by decide)⟩

/-! ## The `mvn` command -/

/-- The two tests of `parseDependency` on the segments, as one condition. -/
theorem segments_check (segs : List GoString) (packaging msg : GoString) :
    (if segs.length < 3 then (Except.error msg : Except GoString (List GoString × GoString))
     else if segs.getD 0 [] = [] ∨ segs.getD 1 [] = [] then .error msg
     else .ok (segs, packaging)) =
    if 3 ≤ segs.length ∧ segs.getD 0 [] ≠ [] ∧ segs.getD 1 [] ≠ [] then
      .ok (segs, packaging)
    else .error msg := by
  generalize segs.getD 0 [] = g
  generalize segs.getD 1 [] = a
  by_cases hl : segs.length < 3
  · have : ¬ (3 ≤ segs.length) := by omega
    simp [hl, this]
  · have h3 : 3 ≤ segs.length := by omega
    by_cases ha : g = []
    · simp [hl, ha]
    · by_cases hb : a = []
      · simp [hl, hb]
      · simp [hl, h3, ha, hb]

theorem parseDependency_of_at (segs : List GoString) (packaging : GoString)
    (hne : segs ≠ []) (hseg : ∀ s ∈ segs, (58 : UInt8) ∉ s)
    (hp : (64 : UInt8) ∉ packaging) :
    parseDependency (joinSegments segs ++ lit "@" ++ packaging) =
      if 3 ≤ segs.length ∧ segs.getD 0 [] ≠ [] ∧ segs.getD 1 [] ≠ [] then
        .ok (segs, packaging)
      else .error (lit "invalid segment: " ++ joinSegments segs) := by
  have hidx : LastIndex (joinSegments segs ++ lit "@" ++ packaging) (lit "@") =
      (joinSegments segs).length := by
    rw [lit_at, LastIndex_singleton, List.append_assoc, List.singleton_append,
      LastIndexByte_append 64 _ _ hp]
  have hne1 : ¬ (((joinSegments segs).length : Int) = -1) := by omega
  have h1 : (((joinSegments segs).length : Int)).toNat = (joinSegments segs).length :=
    Int.toNat_ofNat _
  have h2 : (((joinSegments segs).length : Int) + 1).toNat = (joinSegments segs ++ [64]).length := by
    simp only [List.length_append, List.length_singleton]
    omega
  have htake : (joinSegments segs ++ lit "@" ++ packaging).take (joinSegments segs).length =
      joinSegments segs := by
    rw [List.append_assoc, List.take_left]
  have hdrop : (joinSegments segs ++ lit "@" ++ packaging).drop
      (joinSegments segs ++ [64]).length = packaging := by
    rw [lit_at, List.drop_left]
  unfold parseDependency
  simp only [hidx, ne_eq, hne1, not_false_eq_true, if_true, h1, h2, htake, hdrop,
    Split_joinSegments segs hne hseg]
  exact segments_check segs _ _

theorem mem_joinSegments (c : UInt8) (segs : List GoString) (hc : c ≠ 58)
    (hseg : ∀ s ∈ segs, c ∉ s) : c ∉ joinSegments segs := by
  induction segs with
  | nil => simp [joinSegments]
  | cons s rest ih =>
    cases rest with
    | nil => simpa [joinSegments] using hseg s (by simp)
    | cons s2 rest2 =>
      have h1 : joinSegments (s :: s2 :: rest2) = s ++ 58 :: joinSegments (s2 :: rest2) := rfl
      rw [h1]
      intro hmem
      rcases List.mem_append.mp hmem with hm | hm
      · exact hseg s (by simp) hm
      · rcases List.mem_cons.mp hm with hm | hm
        · exact hc hm
        · exact ih (fun x hx => hseg x (by simp [hx])) hm

theorem parseDependency_of_no_at (segs : List GoString)
    (hne : segs ≠ []) (hseg : ∀ s ∈ segs, (58 : UInt8) ∉ s)
    (hat : ∀ s ∈ segs, (64 : UInt8) ∉ s) :
    parseDependency (joinSegments segs) =
      if 3 ≤ segs.length ∧ segs.getD 0 [] ≠ [] ∧ segs.getD 1 [] ≠ [] then
        .ok (segs, lit "jar")
      else .error (lit "invalid segment: " ++ joinSegments segs) := by
  have hidx : LastIndex (joinSegments segs) (lit "@") = -1 := by
    rw [lit_at, LastIndex_singleton]
    exact LastIndexByte_of_not_mem 64 _ (mem_joinSegments 64 segs (by decide) hat)
  unfold parseDependency
  simp only [hidx, ne_eq, not_true_eq_false, if_false, Split_joinSegments segs hne hseg]
  exact segments_check segs _ _

theorem fetchMaven_of_empty_version (env : MavenEnv) (out mirror pkg : GoString)
    (parts : List GoString) (packaging : GoString)
    (hparse : parseDependency pkg = .ok (parts, packaging)) (hv : parts.getD 2 [] = []) :
    fetchMaven env out mirror pkg =
      (getLatestVersion env mirror (parts.getD 0 []) (parts.getD 1 [])).bind
        (fetchMavenVersion env out mirror parts packaging) := by
  unfold fetchMaven
  rw [hparse]
  simp only [hv, if_true]
  cases getLatestVersion env mirror (parts.getD 0 []) (parts.getD 1 []) <;> rfl

/-- C14: for segments without colon joined by colons, with or without a
trailing `@packaging`, `parseDependency` succeeds exactly when there are at
least three segments and the first two are not empty; it then returns the
segments as they are and the packaging, which is `jar` when there is no `@`.
The argument `io.vertx:vertx-shell:` is accepted with an empty third segment,
and for an empty third segment `fetchMaven` asks `getLatestVersion` for the
version it downloads. -/
theorem parseDependency_accepts (segs : List GoString) (packaging : GoString)
    (hne : segs ≠ []) (hseg : ∀ s ∈ segs, (58 : UInt8) ∉ s) :
    ((64 : UInt8) ∉ packaging →
      parseDependency (joinSegments segs ++ lit "@" ++ packaging) =
        if 3 ≤ segs.length ∧ segs.getD 0 [] ≠ [] ∧ segs.getD 1 [] ≠ [] then
          .ok (segs, packaging)
        else .error (lit "invalid segment: " ++ joinSegments segs)) ∧
    ((∀ s ∈ segs, (64 : UInt8) ∉ s) →
      parseDependency (joinSegments segs) =
        if 3 ≤ segs.length ∧ segs.getD 0 [] ≠ [] ∧ segs.getD 1 [] ≠ [] then
          .ok (segs, lit "jar")
        else .error (lit "invalid segment: " ++ joinSegments segs)) ∧
    parseDependency (lit "io.vertx:vertx-shell:") =
      .ok ([lit "io.vertx", lit "vertx-shell", []], lit "jar") ∧
    (∀ (env : MavenEnv) (out mirror pkg : GoString) (parts : List GoString) (p : GoString),
      parseDependency pkg = .ok (parts, p) → parts.getD 2 [] = [] →
      fetchMaven env out mirror pkg =
        (getLatestVersion env mirror (parts.getD 0 []) (parts.getD 1 [])).bind
          (fetchMavenVersion env out mirror parts p)) :=
  ⟨parseDependency_of_at segs packaging hne hseg, parseDependency_of_no_at segs hne hseg,
    by decide, fun env out mirror pkg parts p hp hv =>
      fetchMaven_of_empty_version env out mirror pkg parts p hp hv⟩

/-- Witness of C14: `io.vertx:vertx-shell:4.5.0@pom`, and the latest version
looked up for `io.vertx:vertx-shell:`. -/
theorem parseDependency_accepts_witness :
    parseDependency (joinSegments [lit "io.vertx", lit "vertx-shell", lit "4.5.0"]
        ++ lit "@" ++ lit "pom") =
      (if 3 ≤ [lit "io.vertx", lit "vertx-shell", lit "4.5.0"].length ∧
          [lit "io.vertx", lit "vertx-shell", lit "4.5.0"].getD 0 [] ≠ [] ∧
          [lit "io.vertx", lit "vertx-shell", lit "4.5.0"].getD 1 [] ≠ [] then
        .ok ([lit "io.vertx", lit "vertx-shell", lit "4.5.0"], lit "pom")
      else .error (lit "invalid segment: " ++
        joinSegments [lit "io.vertx", lit "vertx-shell", lit "4.5.0"])) ∧
    fetchMaven sampleMaven (lit "out") (lit "https://repo/") (lit "io.vertx:vertx-shell:") =
      (getLatestVersion sampleMaven (lit "https://repo/")
          ([lit "io.vertx", lit "vertx-shell", []].getD 0 [])
          ([lit "io.vertx", lit "vertx-shell", []].getD 1 [])).bind
        (fetchMavenVersion sampleMaven (lit "out") (lit "https://repo/")
          [lit "io.vertx", lit "vertx-shell", []] (lit "jar")) :=
  ⟨(parseDependency_accepts [lit "io.vertx", lit "vertx-shell", lit "4.5.0"] (lit "pom")
      (by decide) (by decide)).1 (by decide),
   (parseDependency_accepts [lit "io.vertx", lit "vertx-shell", lit "4.5.0"] (lit "pom")
      (by decide) (by decide)).2.2.2 sampleMaven (lit "out") (lit "https://repo/")
      (lit "io.vertx:vertx-shell:") [lit "io.vertx", lit "vertx-shell", []] (lit "jar")
      (by decide) (by decide)⟩

/-- C15, at `io.vertx:vertx-shell@4.5.0`: the text after `@` is taken as the
packaging, the two segments left are rejected, and `fetchMaven` fetches
nothing.  When a third segment is there, as in
`io.vertx:vertx-shell:4.4.0@4.5.0`, the version is that segment and the text
after `@` ends the file name. -/
theorem fetchMaven_rejects_name_at_version :
    parseDependency (lit "io.vertx:vertx-shell@4.5.0") =
      .error (lit "invalid segment: io.vertx:vertx-shell") ∧
    (∀ (env : MavenEnv) (out mirror : GoString),
      fetchMaven env out mirror (lit "io.vertx:vertx-shell@4.5.0") =
        .error (lit "invalid segment: io.vertx:vertx-shell")) ∧
    (fetchMaven sampleMaven (lit "out") (lit "https://repo")
        (lit "io.vertx:vertx-shell:4.4.0@4.5.0")).toOption.map
      (fun f => (f.version, f.filename)) =
        some (lit "4.4.0", lit "vertx-shell-4.4.0.4.5.0") := by
  have hparse : parseDependency (lit "io.vertx:vertx-shell@4.5.0") =
      .error (lit "invalid segment: io.vertx:vertx-shell") := by decide
  refine ⟨hparse, ?_, by decide⟩
  intro env out mirror
  unfold fetchMaven
  rw [hparse]

/-! ## The `types` command -/

/-- C16, at an archive with the entry `package/my-package/index.d.ts`:
every `package/` of the name is removed, so the file is written as
`my-index.d.ts`, where removing the leading `package/` gives
`my-package/index.d.ts`.  The entries ending in `.d.ts` are the ones written,
with their bytes. -/
theorem typingFromFile_removes_every_package :
    typingFromFile (fun _ => false) (some sampleArchive) (lit "typing") =
      ([{ dir := lit "typing", name := lit "my-index.d.ts", data := lit "A" },
        { dir := lit "typing", name := lit "index.d.ts", data := lit "B" }], false) ∧
    TrimPrefix (lit "package/my-package/index.d.ts") (lit "package/") =
      lit "my-package/index.d.ts" ∧
    ReplaceAll (lit "package/my-package/index.d.ts") (lit "package/") (lit "") ≠
      TrimPrefix (lit "package/my-package/index.d.ts") (lit "package/") := by
  decide

theorem typingFn_state (writeFails : Path → Bool) (pkg o path : Path) (info : Node)
    (err : Bool) (copied : List (Path × GoString)) :
    (typingFn writeFails pkg o path info err copied).1 = copied := by
  have hlen : (lit ".ts.d").length = 5 := by decide
  have hno : ¬ ((filepath.Base path).length > 3 ∧
      (filepath.Base path).drop ((filepath.Base path).length - 4) = lit ".ts.d") := by
    rintro ⟨h1, h2⟩
    have h3 := congrArg List.length h2
    rw [List.length_drop, hlen] at h3
    omega
  unfold typingFn
  by_cases he : err = true
  · simp [he]
  · by_cases hd : (info.IsDir || decide (filepath.Ext (filepath.Base path) ≠ lit ".d")) = true
    · simp only [he, Bool.false_eq_true, if_false, hd, if_true]
    · simp only [he, Bool.false_eq_true, if_false, hd, hno]

mutual
/-- A walk function that leaves the state as it is makes a walk that leaves
the state as it is. -/
theorem walk_state {σ : Type} (fn : WalkFunc σ)
    (hfn : ∀ path info err s, (fn path info err s).1 = s) :
    ∀ (node : Node) (path : Path) (s : σ), (walk fn path node s).1 = s
  | .file data, path, s => by
    simp only [walk]
    exact hfn _ _ _ _
  | .broken, path, s => by
    simp only [walk]
    exact hfn _ _ _ _
  | .dir readErr entries, path, s => by
    have h1 := hfn path (.dir readErr entries) readErr s
    have h2 := walkEntries_state fn hfn entries path
    simp only [walk]
    rcases hr : fn path (.dir readErr entries) readErr s with ⟨s1, e⟩
    rw [hr] at h1
    simp only at h1
    subst h1
    cases e with
    | some e => rfl
    | none =>
      cases readErr with
      | true => rfl
      | false => simpa using h2 s1
/-- The same for the entries of a directory. -/
theorem walkEntries_state {σ : Type} (fn : WalkFunc σ)
    (hfn : ∀ path info err s, (fn path info err s).1 = s) :
    ∀ (es : Entries) (path : Path) (s : σ), (walkEntries fn path es s).1 = s
  | .nil, path, s => by
    simp [walkEntries]
  | .cons name node rest, path, s => by
    have h1 := walk_state fn hfn node (path ++ [name]) s
    have h2 := walkEntries_state fn hfn rest path
    simp only [walkEntries]
    rcases hr : walk fn (path ++ [name]) node s with ⟨s1, e⟩
    rw [hr] at h1
    simp only at h1
    subst h1
    cases e with
    | none => simpa using h2 s1
    | some e =>
      by_cases hc : e = .SkipDir ∧ node.isFile = false
      · simpa [hc] using h2 s1
      · simp [hc]
end

set_option maxRecDepth 100000 in
/-- C17: `typingFromFolder` copies no file, whatever the folder: the test on
the last four bytes of the name against the five bytes `.ts.d` never holds.
In the sample folder `index.d.ts` and `lib/util.d.ts` are not copied; a
direct copy of the files ending in `.d.ts` would have two files to copy. -/
theorem typingFromFolder_copies_nothing (writeFails : Path → Bool) (pkg o : Path)
    (tree : Node) :
    (typingFromFolder writeFails pkg o tree).1 = [] ∧
    (typingFromFolder (fun _ => false) [lit "pkg"] [lit "out"] sampleFolder) = ([], none) ∧
    HasSuffix (lit "index.d.ts") (lit ".d.ts") = true := by
  refine ⟨?_, by decide, by decide⟩
  unfold typingFromFolder filepath.Walk
  have h := walk_state (typingFn writeFails pkg o) (typingFn_state writeFails pkg o) tree pkg []
  rcases hr : walk (typingFn writeFails pkg o) pkg tree [] with ⟨s1, e⟩
  rw [hr] at h
  simp only at h
  subst h
  cases e with
  | none => rfl
  | some e => cases e <;> rfl


end Fetchers

namespace Esbuild

open Httpd

/-- C19, whatever the config file: when `--platform`, `--format` and
`--target` are not passed, `cmd.String` gives their defaults `browser`, `iife`
and `es2015`, which are not empty, so the settings are overwritten by them.
A config file for node, ES modules and ES2020 is built for the browser, as an
IIFE, for ES2015; its source map setting, guarded by `cmd.IsSet`, is kept. -/
theorem override_replaces_config_by_defaults (cmd : Command) (loaded : EsbuildConfig) :
    (override { cmd with platform := none, format := none, target := none } loaded).Platform
      = lit "browser" ∧
    (override { cmd with platform := none, format := none, target := none } loaded).Format
      = lit "iife" ∧
    (override { cmd with platform := none, format := none, target := none } loaded).Target
      = lit "es2015" ∧
    (buildOptions noFlags nodeConfig).toOption.map
        (fun b => (b.Platform, b.Format, b.Target, b.Sourcemap)) =
      some (.PlatformBrowser, .FormatIIFE, .ES2015, .SourceMapExternal) ∧
    (parsePlatform nodeConfig.Platform, parseFormat nodeConfig.Format,
        parseTarget nodeConfig.Target) = (.PlatformNode, .FormatESModule, .ES2020) := by
  have hb : lit "browser" ≠ [] := by decide
  have hi : lit "iife" ≠ [] := by decide
  have he : lit "es2015" ≠ [] := by decide
  have key : ∀ c : EsbuildConfig,
      (overrideTargets { cmd with platform := none, format := none, target := none } c).Platform
        = lit "browser" ∧
      (overrideTargets { cmd with platform := none, format := none, target := none } c).Format
        = lit "iife" ∧
      (overrideTargets { cmd with platform := none, format := none, target := none } c).Target
        = lit "es2015" := by
    intro c
    simp only [overrideTargets, cmdString, Option.getD_none, hb, hi, he, ne_eq,
      not_false_eq_true, if_true]
    by_cases ht : cmd.tsconfig.getD [] = [] <;> simp [ht]
  unfold override
  exact ⟨(key _).1, (key _).2.1, (key _).2.2, by decide, by decide⟩

end Esbuild
